import Mathlib

/-!
# Verification of the CBE expense statement-extraction and aggregation engine

This development embeds the core of the `cbe-expense` repository in Lean 4 and
settles the specification claims against it.  JavaScript strings are modeled as
`List Char`; JavaScript runtime values appearing in transaction records are
modeled by the inductive type `JsVal` (with `NaN` a separate constructor, since
`NaN` propagation is one of the properties under study).  `Array.prototype.sort`
is modeled as a stable merge sort (`jsSort`), implemented with explicit fuel so
that concrete runs reduce inside `decide`, and proved equal to the standard
`List.mergeSort`.

The embedded functions keep the source names: `extractField`,
`extractPayerReceiver`, `extractFromPdf`, `extractFromSms`, `sortData`,
`getTopRecipients`, and the message-processing loop of `FileInput.processFile`
(`processMessage` / `processBatch`).

Modeling notes (divergences from full ECMAScript, none of which is exercised by
the extraction pipeline or by the claims):
* numeric literals are parsed in decimal form only (`Infinity` and hex/octal
  forms are not modeled);
* `Date` parsing accepts exactly the `YYYY-MM-DD` shape the pipeline itself
  constructs, with real calendar range checks; timestamps are modeled on a
  monotone day-count scale (order-isomorphic to millisecond timestamps, with
  the 1970-01-01 epoch mapped to `0`);
* the whitespace class is the common ASCII set plus NBSP.
-/

/-- A JavaScript string, modeled as its list of characters. -/
abbrev Str := List Char

/-- The JavaScript whitespace class (`\s`, and the set trimmed by
`String.prototype.trim`), restricted to the characters that can actually occur
in this pipeline's inputs: space, tab, line feed, carriage return, vertical
tab, form feed and NBSP. -/
def isJsWhitespace (c : Char) : Bool :=
  c = ' ' || c = '\t' || c = '\n' || c = '\r' ||
  c = Char.ofNat 11 || c = Char.ofNat 12 || c = Char.ofNat 0xA0

/-- `String.prototype.trim`: strip leading and trailing whitespace. -/
def jsTrim (s : Str) : Str :=
  ((s.dropWhile isJsWhitespace).reverse.dropWhile isJsWhitespace).reverse

/-- Smallest index (relative to `s`) at which `pat` occurs as a prefix of the
corresponding suffix of `s`; `none` when `pat` does not occur.  This is the
search kernel of `String.prototype.indexOf`. -/
def idxOfFirst (pat : Str) : Str → Option Nat
  | [] => if pat.isPrefixOf ([] : Str) then some 0 else none
  | c :: rest =>
    if pat.isPrefixOf (c :: rest) then some 0 else (idxOfFirst pat rest).map (· + 1)

/-- `text.indexOf(pat, start)` (for `start ≤ text.length`, the only way the
source calls it); `none` models the `-1` result. -/
def jsIndexOf (text pat : Str) (start : Nat) : Option Nat :=
  (idxOfFirst pat (text.drop start)).map (start + ·)

/-- `pat` occurs in `text` at index `i`. -/
def MatchesAt (pat text : Str) (i : Nat) : Prop :=
  pat <+: text.drop i

instance (pat text : Str) (i : Nat) : Decidable (MatchesAt pat text i) := by
  unfold MatchesAt; infer_instance

/-- The inner helper `extractField(startString, endString)` of
`extractFromPdf` (src/lib/utils.js lines 46–67).  `endString = none` models an
omitted end marker; the empty string is falsy in JavaScript, so `some []`
behaves identically (both take the `text.length` branch).  The `required`
parameter of the source only controls console warnings and is not modeled. -/
def extractField (text startString : Str) (endString : Option Str) : Option Str :=
  match jsIndexOf text startString 0 with
  | none => none
  | some start =>
    let startIndex := start + startString.length
    match endString with
    | none => some (jsTrim (text.drop startIndex))
    | some e =>
      if e.isEmpty then some (jsTrim (text.drop startIndex))
      else
        match jsIndexOf text e startIndex with
        | none => none
        | some endIndex => some (jsTrim ((text.take endIndex).drop startIndex))

/-- The inner helper `extractPayerReceiver(type)` of `extractFromPdf`
(src/lib/utils.js lines 69–89): find `type + " "`, then the next two-space
`"  Account"` marker, and return the trimmed text in between. -/
def extractPayerReceiver (text ty : Str) : Option Str :=
  let startString := ty ++ [' ']
  match jsIndexOf text startString 0 with
  | none => none
  | some start =>
    let afterLabel := start + startString.length
    match jsIndexOf text ("  Account".toList) afterLabel with
    | none => none
    | some accountIndex => some (jsTrim ((text.take accountIndex).drop afterLabel))

/-- Numeric value of a decimal digit. -/
def digitVal (c : Char) : Nat := c.toNat - '0'.toNat

/-- Value of a digit string read in base 10. -/
def natOfDigits (s : Str) : Nat := s.foldl (fun a c => 10 * a + digitVal c) 0

/-- Split off the leading run of decimal digits. -/
def splitDigits (s : Str) : Str × Str := (s.takeWhile Char.isDigit, s.dropWhile Char.isDigit)

/-- Exponent part of a decimal literal: optional sign then digits.  When no
digit follows, the exponent fails to match and contributes `none`. -/
def parseExpPart (s : Str) : Option (Int × Str) :=
  match s with
  | '-' :: r =>
    let (d, rest) := splitDigits r
    if d.isEmpty then none else some (-(natOfDigits d : Int), rest)
  | '+' :: r =>
    let (d, rest) := splitDigits r
    if d.isEmpty then none else some ((natOfDigits d : Int), rest)
  | r =>
    let (d, rest) := splitDigits r
    if d.isEmpty then none else some ((natOfDigits d : Int), rest)

/-- Value `sign · (ip.fp) · 10^ex` of a decimal literal, built with core
rational operations so that it reduces inside `decide`. -/
def decValue (neg : Bool) (ip fp : Str) (ex : Int) : ℚ :=
  let m : Int := (natOfDigits (ip ++ fp) : Int)
  let m : Int := if neg then -m else m
  if 0 ≤ ex then mkRat (m * (10 : Int) ^ ex.toNat) ((10 : Nat) ^ fp.length)
  else mkRat m ((10 : Nat) ^ fp.length * (10 : Nat) ^ (-ex).toNat)

/-- Optional sign of a decimal literal. -/
def parseSign (s : Str) : Bool × Str :=
  match s with
  | '-' :: r => (true, r)
  | '+' :: r => (false, r)
  | _ => (false, s)

/-- Optional fraction part: a dot followed by a digit run. -/
def parseFrac (s : Str) : Str × Str :=
  match s with
  | '.' :: r => splitDigits r
  | _ => ([], s)

/-- Optional exponent: `e`/`E` with a signed digit run; when absent or
malformed nothing is consumed. -/
def parseExpo (s : Str) : Int × Str :=
  match s with
  | 'e' :: r =>
    (match parseExpPart r with
     | some (e, rr) => (e, rr)
     | none => ((0 : Int), s))
  | 'E' :: r =>
    (match parseExpPart r with
     | some (e, rr) => (e, rr)
     | none => ((0 : Int), s))
  | _ => ((0 : Int), s)

/-- Longest decimal-literal prefix of `s`: optional sign, integer digits,
optional fraction, optional exponent; at least one mantissa digit is required.
Returns the value and the unconsumed rest; `none` when no prefix parses. -/
def parseDecimal (s : Str) : Option (ℚ × Str) :=
  let (neg, s1) := parseSign s
  let (ip, s2) := splitDigits s1
  let (fp, s3) := parseFrac s2
  if ip.isEmpty && fp.isEmpty then none
  else
    let (ex, rest) := parseExpo s3
    some (decValue neg ip fp ex, rest)

/-- `parseFloat`: skip leading whitespace, then read the longest decimal
prefix; `none` models `NaN`. -/
def jsParseFloat (s : Str) : Option ℚ :=
  (parseDecimal (s.dropWhile isJsWhitespace)).map (·.1)

/-- `ToNumber` on a string (as used by `<` and arithmetic): trim; the empty
string is `0`; otherwise the whole string must be one decimal literal. -/
def jsStrToNumber (s : Str) : Option ℚ :=
  let t := jsTrim s
  if t.isEmpty then some 0
  else
    match parseDecimal t with
    | some (q, []) => some q
    | _ => none

/-- `s.replace(/,/g, "")`. -/
def stripCommas (s : Str) : Str := s.filter (fun c => c ≠ ',')

example : jsParseFloat ("1,234.56".toList) = some 1 := by decide
example : jsParseFloat (stripCommas ("1,234.56".toList)) = some (mkRat 123456 100) := by
  decide
example : jsParseFloat ("abc".toList) = none := by decide
example : jsStrToNumber ("  12.5 ".toList) = some (mkRat 25 2) := by decide
example : jsStrToNumber ("12x".toList) = none := by decide
example : idxOfFirst ("bc".toList) ("abcbc".toList) = some 1 := by decide
example : extractField ("x Transferred Amount 12 ETB y".toList)
    ("Transferred Amount".toList) (some ("ETB".toList)) = some ("12".toList) := by decide

/-- A JavaScript runtime value as stored in a transaction record.  `nan` is
kept separate from finite numbers because `NaN` propagation is one of the
properties under study (`Infinity` and `-0` never arise in this pipeline and
are not modeled). -/
inductive JsVal where
  | null
  | undef
  | nan
  | num (q : ℚ)
  | str (s : Str)
deriving Repr, DecidableEq

/-- `ToNumber` coercion; `none` models `NaN`. -/
def jsToNumber : JsVal → Option ℚ
  | .null => some 0
  | .undef => none
  | .nan => none
  | .num q => some q
  | .str s => jsStrToNumber s

/-- JavaScript truthiness. -/
def jsTruthy : JsVal → Bool
  | .null => false
  | .undef => false
  | .nan => false
  | .num q => q ≠ 0
  | .str s => !s.isEmpty

/-- Strict lexicographic order on strings by code point (JavaScript `<` on two
strings). -/
def lexLt : Str → Str → Bool
  | [], [] => false
  | [], _ :: _ => true
  | _ :: _, [] => false
  | a :: as, b :: bs => if a < b then true else if b < a then false else lexLt as bs

/-- Strict comparison on optional values, false whenever a side is `none`
(the `NaN` behaviour of JavaScript relational operators). -/
def optLt {α : Type} [LT α] [DecidableRel (α := α) (· < ·)] (x y : Option α) : Bool :=
  match x, y with
  | some a, some b => decide (a < b)
  | _, _ => false

/-- JavaScript `a < b`: lexicographic when both operands are strings,
otherwise numeric after `ToNumber` (false whenever a side is `NaN`). -/
def jsLtVal (a b : JsVal) : Bool :=
  match a, b with
  | .str x, .str y => lexLt x y
  | _, _ => optLt (jsToNumber a) (jsToNumber b)

/-- Proleptic-Gregorian leap year. -/
def isLeap (y : Nat) : Bool := (y % 4 = 0 && y % 100 ≠ 0) || y % 400 = 0

/-- Days in a month (1-based). -/
def daysInMonth (y m : Nat) : Nat :=
  if m = 2 then (if isLeap y then 29 else 28)
  else if m = 4 || m = 6 || m = 9 || m = 11 then 30
  else 31

/-- Monotone day-count code of a calendar date; subtracting the code of
1970-01-01 gives a timestamp that is order-isomorphic to the JavaScript
millisecond timestamp and has the same sign relative to the epoch. -/
def dateCode (y m d : Nat) : Nat := (y * 12 + (m - 1)) * 31 + (d - 1)

/-- `new Date(s).valueOf()` for the `YYYY-MM-DD` strings this pipeline
constructs (the only shape it ever feeds to `Date`); other shapes are modeled
as unparsable (`none` = `NaN`, an invalid date). -/
def jsParseDate (s : Str) : Option Int :=
  match s with
  | [y1, y2, y3, y4, h1, m1, m2, h2, d1, d2] =>
    if (List.all [y1, y2, y3, y4, m1, m2, d1, d2] Char.isDigit) && h1 = '-' && h2 = '-' then
      let y := natOfDigits [y1, y2, y3, y4]
      let m := natOfDigits [m1, m2]
      let d := natOfDigits [d1, d2]
      if 1 ≤ m && m ≤ 12 && 1 ≤ d && d ≤ daysInMonth y m then
        some ((dateCode y m d : Int) - (dateCode 1970 1 1 : Int))
      else none
    else none
  | _ => none

/-- Timestamp of `new Date(v)` for a record field `v`: `null` is the epoch,
`undefined`/`NaN` are invalid, numbers are timestamps (the pipeline never
stores a numeric date, so the day-count scale is irrelevant for them), strings
are parsed. -/
def jsDateValue : JsVal → Option Int
  | .null => some 0
  | .undef => none
  | .nan => none
  | .num q => some ⌊q⌋
  | .str s => jsParseDate s

/-- Match exactly `n` decimal digits at the head of `s`. -/
def matchDigits (n : Nat) (s : Str) : Option (Str × Str) :=
  let d := s.take n
  if d.length = n && d.all Char.isDigit then some (d, s.drop n) else none

/-- Match `\d{1,2}` immediately followed by the separator `sep`, returning the
digits and the rest after the separator.  The two-digit alternative is tried
first (greedy); when it matches but the separator test fails, the one-digit
alternative cannot succeed either (its separator position holds a digit), so
committing is exactly regex backtracking. -/
def matchD12Sep (sep : Char) (s : Str) : Option (Str × Str) :=
  match s with
  | c1 :: rest1 =>
    if c1.isDigit then
      match rest1 with
      | c2 :: rest2 =>
        if c2.isDigit then
          match rest2 with
          | c3 :: rest3 => if c3 = sep then some ([c1, c2], rest3) else none
          | [] => none
        else if c2 = sep then some ([c1], rest2) else none
      | [] => none
    else none
  | [] => none

/-- Try `(\d{1,2}\/\d{1,2}\/\d{4})` at the head of `s`, returning the three
captured digit groups. -/
def dateTryAt (s : Str) : Option (Str × Str × Str) :=
  match matchD12Sep '/' s with
  | none => none
  | some (d1, r1) =>
    match matchD12Sep '/' r1 with
    | none => none
    | some (d2, r2) =>
      match matchDigits 4 r2 with
      | none => none
      | some (y, _) => some (d1, d2, y)

/-- Leftmost match of the date regex in `s`. -/
def dateSearch : Str → Option (Str × Str × Str)
  | [] => none
  | c :: rest =>
    match dateTryAt (c :: rest) with
    | some t => some t
    | none => dateSearch rest

/-- `String.prototype.split` with a single-character separator. -/
def splitOnChar (sep : Char) : Str → List Str
  | [] => [[]]
  | c :: rest =>
    let r := splitOnChar sep rest
    if c = sep then [] :: r
    else
      match r with
      | h :: t => (c :: h) :: t
      | [] => [[c]]

/-- `s.padStart(2, "0")`. -/
def padStart2 (s : Str) : Str :=
  if s.length < 2 then List.replicate (2 - s.length) '0' ++ s else s

/-- The date-normalization block of `extractFromPdf` (src/lib/utils.js lines
97–106): find the first `\d{1,2}\/\d{1,2}\/\d{4}` match, split it on `/` into
`[day, month, year]` — the source destructures the FIRST component as `day`
and the SECOND as `month` — and rebuild `year-month-day` with two-digit
padding. -/
def normalizeDateStr (dateStr : Str) : Option Str :=
  match dateSearch dateStr with
  | none => none
  | some (d1, d2, y) =>
    let matched := d1 ++ '/' :: (d2 ++ '/' :: y)
    let parts := splitOnChar '/' matched
    let day := parts.getD 0 []
    let month := parts.getD 1 []
    let year := parts.getD 2 []
    some (year ++ '-' :: (padStart2 month ++ '-' :: padStart2 day))

/-- Try `\d{1,2}:\d{2}:\d{2}\s*[AP]M` at the head of `s`, returning the whole
matched substring (whitespace run included, as in `match[0]`). -/
def timeTryAt (s : Str) : Option Str :=
  match matchD12Sep ':' s with
  | none => none
  | some (hh, r1) =>
    match matchDigits 2 r1 with
    | none => none
    | some (mm, r2) =>
      match r2 with
      | ':' :: r3 =>
        match matchDigits 2 r3 with
        | none => none
        | some (ss, r4) =>
          let w := r4.takeWhile isJsWhitespace
          match r4.dropWhile isJsWhitespace with
          | a :: 'M' :: _ =>
            if a = 'A' || a = 'P' then
              some (hh ++ ':' :: (mm ++ ':' :: (ss ++ w ++ [a, 'M'])))
            else none
          | _ => none
      | _ => none

/-- Leftmost match of the time regex in `s`. -/
def timeSearch : Str → Option Str
  | [] => none
  | c :: rest =>
    match timeTryAt (c :: rest) with
    | some t => some t
    | none => timeSearch rest

/-- The record assembled by `extractFromPdf` (no `currentBalance` field: the
source removed it, leaving that property `undefined`). -/
structure ExtractedData where
  amount : JsVal
  date : JsVal
  time : JsVal
  receiver : JsVal
  payer : JsVal
  reason : JsVal
  totalAmount : JsVal
deriving Repr, DecidableEq

/-- Truthiness of an `extractField` result (a JavaScript string or `null`). -/
def strTruthy : Option Str → Bool
  | none => false
  | some s => !s.isEmpty

/-- `x ? x : null` wrapping of an optional string field. -/
def optStrToVal : Option Str → JsVal
  | none => .null
  | some s => .str s

/-- `amountStr ? parseFloat(amountStr.replace(/,/g, "").trim()) : null`. -/
def parseAmountField : Option Str → JsVal
  | none => .null
  | some s =>
    if s.isEmpty then .null
    else
      match jsParseFloat (jsTrim (stripCommas s)) with
      | some q => .num q
      | none => .nan

/-- `extractFromPdf` (src/lib/utils.js lines 43–121): anchor-extract the six
document fields, normalize the date, and separately match the clock time
(`dateStr.match(...)?.[0]` is `undefined`, not `null`, when the time regex
fails on a truthy `dateStr`). -/
def extractFromPdf (text : Str) : ExtractedData :=
  let amountStr := extractField text ("Transferred Amount".toList) (some ("ETB".toList))
  let dateStr := extractField text ("Payment Date & Time".toList) (some ("Reference No.".toList))
  let receiver := extractPayerReceiver text ("Receiver".toList)
  let payer := extractPayerReceiver text ("Payer".toList)
  let reason := extractField text ("Reason / Type of service".toList)
    (some ("Transferred Amount".toList))
  let totalAmountStr := extractField text
    ("Total amount debited from customers account".toList) (some ("ETB".toList))
  let formattedDate : JsVal :=
    if strTruthy dateStr then
      match normalizeDateStr (dateStr.getD []) with
      | some f => .str f
      | none => .null
    else .null
  let timeVal : JsVal :=
    if strTruthy dateStr then
      match timeSearch (dateStr.getD []) with
      | some t => .str t
      | none => .undef
    else .null
  { amount := parseAmountField amountStr
    date := formattedDate
    time := timeVal
    receiver := optStrToVal receiver
    payer := optStrToVal payer
    reason := optStrToVal reason
    totalAmount := parseAmountField totalAmountStr }

example : normalizeDateStr ("3/4/2024, 10:15:00 AM".toList) =
    some ("2024-04-03".toList) := by decide
example : timeSearch ("3/4/2024, 10:15:00 AM".toList) = some ("10:15:00 AM".toList) := by
  decide
example : jsParseDate ("2024-04-03".toList) =
    some ((dateCode 2024 4 3 : Int) - (dateCode 1970 1 1 : Int)) := by decide
example : jsParseDate ("2024-31-04".toList) = none := by decide

/-- Try `https?:\/\/\S+` at the head of `s`.  `https` is preferred (greedy
`s?`); when the `https` branch fails its `://` test the `http` branch cannot
succeed at the same position, so trying prefixes in this order is exactly
regex backtracking. -/
def linkTryAt (s : Str) : Option Str :=
  if ("https://".toList).isPrefixOf s then
    let run := (s.drop 8).takeWhile (fun c => !isJsWhitespace c)
    if run.isEmpty then none else some ("https://".toList ++ run)
  else if ("http://".toList).isPrefixOf s then
    let run := (s.drop 7).takeWhile (fun c => !isJsWhitespace c)
    if run.isEmpty then none else some ("http://".toList ++ run)
  else none

/-- Leftmost match of the link regex. -/
def linkSearch : Str → Option Str
  | [] => none
  | c :: rest =>
    match linkTryAt (c :: rest) with
    | some l => some l
    | none => linkSearch rest

/-- `extractFromSms` (src/lib/utils.js lines 5–9): first
`https?:\/\/\S+` match of the message text, or `null`. -/
def extractFromSms (text : Str) : Option Str := linkSearch text

/-- Character class `[\d,\.]` of the balance capture. -/
def isBalChar (c : Char) : Bool := c.isDigit || c = ',' || c = '.'

/-- Try `Your Current Balance is ETB\s*([\d,\.]+)` at the head of `s`,
returning the capture group. -/
def balTryAt (s : Str) : Option Str :=
  let lit := "Your Current Balance is ETB".toList
  if lit.isPrefixOf s then
    let cap := ((s.drop lit.length).dropWhile isJsWhitespace).takeWhile isBalChar
    if cap.isEmpty then none else some cap
  else none

/-- Leftmost match of the balance regex. -/
def balSearch : Str → Option Str
  | [] => none
  | c :: rest =>
    match balTryAt (c :: rest) with
    | some t => some t
    | none => balSearch rest

/-- The balance block of `processFile` (src/components/FileInput.jsx lines
78–83): `currentBalance` stays `null` unless the balance regex matches, in
which case it becomes `parseFloat(capture.replace(/,/g, ""))` (possibly
`NaN`). -/
def msgBalance (text : Str) : JsVal :=
  match balSearch text with
  | none => .null
  | some cap =>
    match jsParseFloat (stripCommas cap) with
    | some q => .num q
    | none => .nan

/-- One input message (`{ text: string }`; `none` models a record without a
`text` property). -/
structure Message where
  text : Option Str
deriving Repr, DecidableEq

/-- Result of the external document fetch (`fetchContent`): a parsed PDF's
text, or an error.  The network itself is out of scope; `processMessage`
receives the fetch as an oracle function. -/
inductive FetchResult where
  | pdf (text : Str)
  | error (message : Str)
deriving Repr, DecidableEq

/-- A transaction record as pushed by `processFile`. -/
structure Tx where
  amount : JsVal
  date : JsVal
  time : JsVal
  receiver : JsVal
  payer : JsVal
  reason : JsVal
  totalAmount : JsVal
  currentBalance : JsVal
deriving Repr, DecidableEq

/-- The push step of `processFile` (src/components/FileInput.jsx lines
101–109): spread the extracted fields and resolve `currentBalance` as
`currentBalance !== null ? currentBalance : transactionData.currentBalance`,
where `transactionData.currentBalance` is `undefined` (the property was
removed from `extractFromPdf`). -/
def assembleTx (d : ExtractedData) (bal : JsVal) : Tx :=
  { amount := d.amount
    date := d.date
    time := d.time
    receiver := d.receiver
    payer := d.payer
    reason := d.reason
    totalAmount := d.totalAmount
    currentBalance := if bal ≠ JsVal.null then bal else JsVal.undef }

/-- `String.prototype.includes`: the pattern occurs somewhere in `s`. -/
def strIncludes (s pat : Str) : Bool := (idxOfFirst pat s).isSome

/-- The qualifying-link test of `processFile` (line 88):
`link.includes("cbe.com.et")` — a plain substring test on the whole URL. -/
def qualifiesLink (link : Str) : Bool := strIncludes link ("cbe.com.et".toList)

/-- The per-message body of the `processFile` loop (src/components/FileInput.jsx
lines 76–110): skip messages without truthy text; extract the balance and the
link; follow the link only when `qualifiesLink` holds; on a successful PDF
fetch push the assembled record (messages whose fetch errors, or with no or a
non-qualifying link, contribute nothing). -/
def processMessage (fetch : Str → FetchResult) (m : Message) : Option Tx :=
  match m.text with
  | none => none
  | some t =>
    if t.isEmpty then none
    else
      let bal := msgBalance t
      match extractFromSms t with
      | none => none
      | some link =>
        if qualifiesLink link then
          match fetch link with
          | .pdf pdfText => some (assembleTx (extractFromPdf pdfText) bal)
          | .error _ => none
        else none

/-- `merge` of the stable merge sort, with explicit fuel so that concrete
applications reduce inside `decide`.  With fuel at least the total length it
agrees with `List.merge`. -/
def mergeFuel (le : α → α → Bool) : Nat → List α → List α → List α
  | 0, xs, ys => xs ++ ys
  | _ + 1, [], ys => ys
  | _ + 1, x :: xs, [] => x :: xs
  | f + 1, x :: xs, y :: ys =>
    if le x y then x :: mergeFuel le f xs (y :: ys) else y :: mergeFuel le f (x :: xs) ys

/-- Fuel-based stable merge sort, splitting exactly like `List.mergeSort`
(first half one element longer). -/
def msortFuel (le : α → α → Bool) : Nat → List α → List α
  | 0, l => l
  | _ + 1, [] => []
  | _ + 1, [a] => [a]
  | f + 1, a :: b :: xs =>
    let n := ((a :: b :: xs).length + 1) / 2
    let ls := msortFuel le f ((a :: b :: xs).take n)
    let rs := msortFuel le f ((a :: b :: xs).drop n)
    mergeFuel le (ls.length + rs.length) ls rs

/-- The model of `Array.prototype.sort(comparefn)`: a stable merge sort, the
algorithm family used by the major engines.  `le a b` means `comparefn(a, b)
≤ 0`, i.e. `a` may stay before `b`. -/
def jsSort (le : α → α → Bool) (l : List α) : List α := msortFuel le l.length l

theorem mergeFuel_eq_merge (le : α → α → Bool) :
    ∀ (f : Nat) (xs ys : List α), xs.length + ys.length ≤ f →
      mergeFuel le f xs ys = xs.merge ys le := by
  intro f
  induction f with
  | zero =>
    intro xs ys h
    match xs, ys with
    | [], [] => simp [mergeFuel]
    | x :: xs, _ => simp at h
    | [], y :: ys => simp at h
  | succ f ih =>
    intro xs ys h
    match xs, ys with
    | [], ys => simp [mergeFuel]
    | x :: xs, [] => simp [mergeFuel]
    | x :: xs, y :: ys =>
      simp only [List.length_cons] at h
      simp only [mergeFuel, List.cons_merge_cons]
      cases hle : le x y with
      | true =>
        simp only [if_true]
        rw [ih xs (y :: ys) (by simp; omega)]
      | false =>
        simp only [Bool.false_eq_true, if_false]
        rw [ih (x :: xs) ys (by simp; omega)]

theorem msortFuel_eq_mergeSort (le : α → α → Bool) :
    ∀ (f : Nat) (l : List α), l.length ≤ f → msortFuel le f l = l.mergeSort le := by
  intro f
  induction f with
  | zero =>
    intro l h
    match l with
    | [] => simp [msortFuel]
    | x :: xs => simp at h
  | succ f ih =>
    intro l h
    match l with
    | [] => simp [msortFuel]
    | [a] => simp [msortFuel]
    | a :: b :: xs =>
      have hlen : (a :: b :: xs).length = xs.length + 2 := by simp
      have h1 : ((a :: b :: xs).take (((a :: b :: xs).length + 1) / 2)).length ≤ f := by
        simp only [List.length_take, hlen]
        simp only [List.length_cons] at h
        omega
      have h2 : ((a :: b :: xs).drop (((a :: b :: xs).length + 1) / 2)).length ≤ f := by
        simp only [List.length_drop, hlen]
        simp only [List.length_cons] at h
        omega
      show mergeFuel le _ _ _ = _
      rw [List.mergeSort]
      rw [ih _ h1, ih _ h2]
      rw [mergeFuel_eq_merge]
      · congr 1 <;>
          simp [List.splitInTwo_fst, List.splitInTwo_snd, hlen]
      · simp

theorem jsSort_eq_mergeSort (le : α → α → Bool) (l : List α) :
    jsSort le l = l.mergeSort le :=
  msortFuel_eq_mergeSort le l.length l (Nat.le_refl _)

theorem jsSort_perm (le : α → α → Bool) (l : List α) : List.Perm (jsSort le l) l := by
  rw [jsSort_eq_mergeSort]; exact List.mergeSort_perm l le

theorem jsSort_sorted (le : α → α → Bool)
    (htrans : ∀ (a b c : α), le a b → le b c → le a c)
    (htotal : ∀ (a b : α), le a b || le b a) (l : List α) :
    (jsSort le l).Pairwise (le · ·) := by
  rw [jsSort_eq_mergeSort]; exact List.sorted_mergeSort htrans htotal l

theorem jsSort_of_sorted (le : α → α → Bool) {l : List α}
    (h : l.Pairwise (le · ·)) : jsSort le l = l := by
  rw [jsSort_eq_mergeSort]; exact List.mergeSort_of_sorted h

theorem jsSort_idem (le : α → α → Bool)
    (htrans : ∀ (a b c : α), le a b → le b c → le a c)
    (htotal : ∀ (a b : α), le a b || le b a) (l : List α) :
    jsSort le (jsSort le l) = jsSort le l :=
  jsSort_of_sorted le (jsSort_sorted le htrans htotal l)

/-- Sorting depends on the comparator only through its values on the list's
elements. -/
theorem jsSort_congr (le le' : α → α → Bool) (l : List α)
    (h : ∀ a ∈ l, ∀ b ∈ l, le a b = le' a b) : jsSort le l = jsSort le' l := by
  rw [jsSort_eq_mergeSort, jsSort_eq_mergeSort]
  have := List.map_mergeSort (r := le) (s := le') (f := id) (l := l)
    (by intro a ha b hb; simpa using h a ha b hb)
  simpa using this

/-- Stability: an ordered pair of the input stays ordered in the output. -/
theorem jsSort_pair_sublist (le : α → α → Bool)
    (htrans : ∀ (a b c : α), le a b → le b c → le a c)
    (htotal : ∀ (a b : α), le a b || le b a)
    {a b : α} {l : List α} (hab : le a b) (h : List.Sublist [a, b] l) :
    List.Sublist [a, b] (jsSort le l) := by
  rw [jsSort_eq_mergeSort]
  exact List.pair_sublist_mergeSort htrans htotal hab h

/-- The comparator of the final batch sort (src/components/FileInput.jsx line
118): `(a, b) => new Date(b.date) - new Date(a.date)`.  `le a b` holds when
the comparator is `≤ 0` or `NaN` (an invalid date makes the difference `NaN`,
which the sort treats as 0, i.e. "keep order"). -/
def batchDateLe (a b : Tx) : Bool :=
  match jsDateValue a.date, jsDateValue b.date with
  | some x, some y => decide (y ≤ x)
  | _, _ => true

/-- The transaction list produced by one `processFile` run over a batch
(src/components/FileInput.jsx lines 73–119): process the messages in order,
collect the pushed records, and sort newest-first. -/
def processBatch (fetch : Str → FetchResult) (msgs : List Message) : List Tx :=
  jsSort batchDateLe (msgs.filterMap (processMessage fetch))

/-- `a[sortColumn]` of `sortData`, on the eight transaction fields (any other
key reads an absent property, i.e. `undefined`). -/
def getField (t : Tx) (col : Str) : JsVal :=
  if col = "amount".toList then t.amount
  else if col = "date".toList then t.date
  else if col = "time".toList then t.time
  else if col = "receiver".toList then t.receiver
  else if col = "payer".toList then t.payer
  else if col = "reason".toList then t.reason
  else if col = "totalAmount".toList then t.totalAmount
  else if col = "currentBalance".toList then t.currentBalance
  else (.undef)

/-- `aValue < bValue` inside the `sortData` comparator: for the `date` column
both sides are first converted by `new Date`, otherwise the generic
JavaScript `<` applies. -/
def sortKeyLt (col : Str) (a b : Tx) : Bool :=
  if col = "date".toList then
    optLt (jsDateValue (getField a col)) (jsDateValue (getField b col))
  else jsLtVal (getField a col) (getField b col)

/-- The `sortData` comparator (src/lib/utils.js lines 128–135). -/
def sortCmp (col dir : Str) (a b : Tx) : Int :=
  if sortKeyLt col a b then (if dir = "asc".toList then -1 else 1)
  else if sortKeyLt col b a then (if dir = "asc".toList then 1 else -1)
  else 0

/-- `a` may stay before `b` under the `sortData` comparator. -/
def sortLe (col dir : Str) (a b : Tx) : Bool := decide (sortCmp col dir a b ≤ 0)

/-- `sortData` (src/lib/utils.js lines 125–136): identity on a falsy sort
column (`none` models `null`/`undefined`; the empty string is also falsy),
otherwise a stable comparator sort of a copy of the data. -/
def sortData (data : List Tx) (sortColumn : Option Str) (sortDirection : Str) : List Tx :=
  match sortColumn with
  | none => data
  | some col => if col.isEmpty then data else jsSort (sortLe col sortDirection) data

/-- `x || 0` on an accumulator read. -/
def jsOr0 (v : JsVal) : JsVal := if jsTruthy v then v else .num 0

/-- Rational addition written in `mkRat` form: `Rat.add` is `irreducible`
and would block kernel evaluation; `ratAdd_eq` shows this is the same
addition. -/
def ratAdd (x y : ℚ) : ℚ := mkRat (x.num * y.den + y.num * x.den) (x.den * y.den)

theorem ratAdd_eq (x y : ℚ) : ratAdd x y = x + y := by
  have hx : (x.den : ℚ) ≠ 0 := by exact_mod_cast x.den_nz
  have hy : (y.den : ℚ) ≠ 0 := by exact_mod_cast y.den_nz
  unfold ratAdd
  rw [Rat.mkRat_eq_div]
  push_cast
  conv_rhs => rw [← Rat.num_div_den x, ← Rat.num_div_den y]
  rw [div_add_div _ _ hx hy]
  ring_nf

/-- JavaScript `+` on the numeric values this aggregation adds (`null` adds 0,
`NaN` poisons the sum; string amounts never occur in pipeline records and the
aggregation theorems restrict to non-string amounts). -/
def jsAdd (a b : JsVal) : JsVal :=
  match jsToNumber a, jsToNumber b with
  | some x, some y => .num (ratAdd x y)
  | _, _ => .nan

theorem jsAdd_num (x y : ℚ) : jsAdd (.num x) (.num y) = .num (x + y) := by
  show JsVal.num (ratAdd x y) = JsVal.num (x + y)
  rw [ratAdd_eq]

/-- Object key for a truthy `receiver` value (pipeline receivers are always
strings; `ToPropertyKey` on other values is not modeled). -/
def jsKeyStr : JsVal → Str
  | .str s => s
  | _ => []

/-- One `forEach` step of `getTopRecipients` on the pair of accumulator
objects, modeled as one insertion-ordered association list of
`(key, count, total)`: `counts[k] = (counts[k] || 0) + 1` and
`totals[k] = (totals[k] || 0) + amt`. -/
def bumpGroups (acc : List (Str × Nat × JsVal)) (key : Str) (amt : JsVal) :
    List (Str × Nat × JsVal) :=
  match acc with
  | [] => [(key, 1, jsAdd (.num 0) amt)]
  | (k, c, tot) :: rest =>
    if k = key then (k, c + 1, jsAdd (jsOr0 tot) amt) :: rest
    else (k, c, tot) :: bumpGroups rest key amt

/-- The accumulation loop of `getTopRecipients` (src/lib/utils.js lines
145–150): group by truthy receiver, in first-appearance order (the
`Object.entries` enumeration order for the non-index keys receivers are). -/
def recipientGroups (txs : List Tx) : List (Str × Nat × JsVal) :=
  txs.foldl
    (fun acc tx =>
      if jsTruthy tx.receiver then bumpGroups acc (jsKeyStr tx.receiver) tx.amount else acc)
    []

/-- The `getTopRecipients` sort comparator (line 153):
`([, countA], [, countB]) => countB - countA`, i.e. descending count;
`le e1 e2` holds when `count e2 - count e1 ≤ 0`. -/
def groupCountLe (e1 e2 : Str × Nat × JsVal) : Bool := decide (e2.2.1 ≤ e1.2.1)

/-- A row of the top-recipients table. -/
structure RecipientRow where
  recipient : Str
  amount : JsVal
  count : Nat
deriving Repr, DecidableEq

/-- `getTopRecipients` (src/lib/utils.js lines 140–161): group, sort the
entries by descending count (stable), truncate to `limit` (canonically 25),
and read each group's total. -/
def getTopRecipients (txs : List Tx) (limit : Nat) : List RecipientRow :=
  ((jsSort groupCountLe (recipientGroups txs)).take limit).map
    (fun e => { recipient := e.1, amount := e.2.2, count := e.2.1 })

example :
    extractFromSms ("Dear x, https://cbe.com.et/r?id=1 done".toList) =
      some ("https://cbe.com.et/r?id=1".toList) := by decide
example : msgBalance ("Your Current Balance is ETB 1,234.56.".toList) =
    .num (mkRat 123456 100) := by decide
example : qualifiesLink ("https://evil.example/cbe.com.et/doc".toList) = true := by decide
example : jsSort (fun a b : Nat => decide (a ≤ b)) [3, 1, 2] = [1, 2, 3] := by decide

/-- Host component of a URL: the authority after `://`, up to the next `/`,
`:`, `?` or `#`.  This is the specification-side notion: the spec's
qualifying-link predicate compares the HOST against the expected issuing
domain, while the code tests substring containment on the whole URL. -/
def urlHost (link : Str) : Str :=
  match jsIndexOf link ("://".toList) 0 with
  | none => []
  | some i =>
    (link.drop (i + 3)).takeWhile (fun c => c ≠ '/' && c ≠ ':' && c ≠ '?' && c ≠ '#')

/-- C10: calling `sortData` with a falsy sort key (absent/null or the empty
string) returns the input collection itself, unchanged.  (Reference identity
cannot be expressed in a shallow embedding; the embedded function returns the
input list itself, mirroring `return data` in the source, which returns the
very array without copying.) -/
theorem sortData_falsy_key_identity :
    ∀ (data : List Tx) (dir : Str),
      sortData data none dir = data ∧ sortData data (some []) dir = data := by
  intro data dir
  exact ⟨rfl, rfl⟩

example :
    processMessage (fun _ => FetchResult.pdf [])
        { text := some ("see https://evil.example/cbe.com.et/doc.pdf".toList) } =
      some { amount := .null, date := .null, time := .null, receiver := .null,
             payer := .null, reason := .null, totalAmount := .null,
             currentBalance := .undef } := by decide

/-- C7 counterexample: the link `https://evil.example/cbe.com.et/doc.pdf` has
host `evil.example`, not the expected issuing domain `cbe.com.et`, yet the
code's qualifying test accepts it (the substring occurs in the path) and the
message IS followed: its fetch result is turned into a transaction, so the
link is not treated as "no link". -/
theorem qualifying_link_host_counterexample :
    qualifiesLink ("https://evil.example/cbe.com.et/doc.pdf".toList) = true ∧
    urlHost ("https://evil.example/cbe.com.et/doc.pdf".toList) = "evil.example".toList ∧
    urlHost ("https://evil.example/cbe.com.et/doc.pdf".toList) ≠ "cbe.com.et".toList ∧
    (processMessage (fun _ => FetchResult.pdf [])
        { text := some ("see https://evil.example/cbe.com.et/doc.pdf".toList) }).isSome
      = true := by
  refine ⟨by decide, by decide, by decide, by decide⟩

/-- C7 (amended): a document link is followed iff the whole link string
contains `"cbe.com.et"` as a substring (not a host comparison): a link
failing the substring test is ignored — the message is processed exactly as
if it contained no link — and a link passing it is followed regardless of its
actual host, its PDF fetch result becoming the message's transaction. -/
theorem qualifying_link_substring (fetch : Str → FetchResult) (t link : Str)
    (htext : extractFromSms t = some link) (hne : t.isEmpty = false) :
    (qualifiesLink link = false → processMessage fetch { text := some t } = none) ∧
    (qualifiesLink link = true → ∀ d, fetch link = FetchResult.pdf d →
      processMessage fetch { text := some t } =
        some (assembleTx (extractFromPdf d) (msgBalance t))) := by
  constructor
  · intro hq
    simp [processMessage, htext, hne, hq]
  · intro hq d hd
    simp [processMessage, htext, hne, hq, hd]

/-- C7 witness: a concrete qualifying link is followed and yields the
assembled transaction. -/
theorem qualifying_link_substring_witness :
    processMessage (fun _ => FetchResult.pdf [])
        { text := some ("z https://cbe.com.et/r".toList) } =
      some (assembleTx (extractFromPdf [])
        (msgBalance ("z https://cbe.com.et/r".toList))) :=
  (qualifying_link_substring (fun _ => FetchResult.pdf [])
      ("z https://cbe.com.et/r".toList) ("https://cbe.com.et/r".toList)
      (by decide) (by decide)).2 (by decide) [] rfl

/-- C5 counterexample: a message with a qualifying link whose fetched PDF
contains no recognizable anchors yields a transaction ALL of whose document
fields (`amount`, `date`, `time`, `receiver`, `payer`, `reason`,
`totalAmount`) are null, and that record is pushed into the batch output —
refuting the claim that such a record is never added. -/
theorem all_null_record_emitted_counterexample :
    processBatch (fun _ => FetchResult.pdf [])
        [{ text := some ("x https://cbe.com.et/r".toList) }] =
      [{ amount := .null, date := .null, time := .null, receiver := .null,
         payer := .null, reason := .null, totalAmount := .null,
         currentBalance := .undef }] := by
  decide

/-- C5 (amended): a transaction is emitted for a message iff the message has
non-empty text containing a qualifying link whose fetch returns a parsed PDF;
the extracted field values are irrelevant to emission, so a record with every
document field null IS emitted whenever the fetched receipt text contains no
recognizable anchors. -/
theorem transaction_emitted_iff_fetch_succeeds (fetch : Str → FetchResult) (m : Message) :
    (processMessage fetch m).isSome = true ↔
      ∃ t link d, m.text = some t ∧ t.isEmpty = false ∧ extractFromSms t = some link ∧
        qualifiesLink link = true ∧ fetch link = FetchResult.pdf d := by
  constructor
  · intro h
    match hm : m.text with
    | none => simp [processMessage, hm] at h
    | some t =>
      by_cases he : t.isEmpty
      · simp [processMessage, hm, he] at h
      · match hl : extractFromSms t with
        | none => simp [processMessage, hm, he, hl] at h
        | some link =>
          by_cases hq : qualifiesLink link
          · match hf : fetch link with
            | .pdf d => exact ⟨t, link, d, rfl, by simpa using he, hl, hq, hf⟩
            | .error emsg => simp [processMessage, hm, he, hl, hq, hf] at h
          · simp [processMessage, hm, he, hl, hq] at h
  · rintro ⟨t, link, d, hm, he, hl, hq, hf⟩
    simp [processMessage, hm, he, hl, hq, hf]

/-- C6: `currentBalance` resolution.  If the message's balance phrase matches
and parses to a number, that number is the emitted transaction's
`currentBalance` (the message value always wins); if it matches but fails
numeric parsing, the resulting `NaN` is stored; and the document-derived
value (`undefined`, since `extractFromPdf` carries no balance) is used
exactly when the message yields no balance at all. -/
theorem msgBalance_not_undefined (t : Str) : msgBalance t ≠ .undef := by
  unfold msgBalance
  cases balSearch t with
  | none => simp
  | some cap => cases hp : jsParseFloat (stripCommas cap) <;> simp [hp]

theorem currentBalance_message_wins (fetch : Str → FetchResult) (m : Message)
    (t : Str) (tx : Tx) (hm : m.text = some t) (h : processMessage fetch m = some tx) :
    (∀ q : ℚ, msgBalance t = .num q → tx.currentBalance = .num q) ∧
    (msgBalance t = .nan → tx.currentBalance = .nan) ∧
    (tx.currentBalance = .undef ↔ msgBalance t = .null) := by
  have he : t.isEmpty = false := by
    cases hte : t.isEmpty
    · rfl
    · exfalso; simp [processMessage, hm, hte] at h
  match hl : extractFromSms t with
  | none => simp [processMessage, hm, he, hl] at h
  | some link =>
    by_cases hq : qualifiesLink link
    · match hf : fetch link with
      | .pdf d =>
        simp only [processMessage, hm, he, hl, hq, hf, if_true, Bool.false_eq_true,
          if_false, Option.some.injEq] at h
        subst h
        refine ⟨?_, ?_, ?_⟩
        · intro q hq'
          simp [assembleTx, hq']
        · intro hq'
          simp [assembleTx, hq']
        · cases hb : msgBalance t <;> simp [assembleTx, hb]
          exact absurd hb (msgBalance_not_undefined t)
      | .error emsg => simp [processMessage, hm, he, hl, hq, hf] at h
    · simp [processMessage, hm, he, hl, hq] at h

/-- C6 witness: a concrete message carrying both a balance and a qualifying
link stores the message balance in the emitted record. -/
theorem currentBalance_message_wins_witness :
    ∃ tx : Tx,
      processMessage (fun _ => FetchResult.pdf [])
          { text := some ("Your Current Balance is ETB 500. https://cbe.com.et/r".toList) }
        = some tx ∧ tx.currentBalance = .num 500 := by
  match hx : processMessage (fun _ => FetchResult.pdf [])
      { text := some ("Your Current Balance is ETB 500. https://cbe.com.et/r".toList) } with
  | none => exact absurd hx (by decide)
  | some tx =>
    exact ⟨tx, rfl,
      (currentBalance_message_wins (fun _ => FetchResult.pdf []) _ _ tx rfl hx).1 500
        (by decide)⟩

theorem ws_not_digit (c : Char) (h : isJsWhitespace c = true) : c.isDigit = false := by
  simp only [isJsWhitespace, Bool.or_eq_true, decide_eq_true_eq] at h
  rcases h with ((((((rfl | rfl) | rfl) | rfl) | rfl) | rfl) | rfl) <;> decide

theorem digit_not_ws (c : Char) (h : c.isDigit = true) : isJsWhitespace c = false := by
  cases hw : isJsWhitespace c
  · rfl
  · rw [ws_not_digit c hw] at h; exact absurd h (by simp)

theorem digit_ne_signs (c : Char) (h : c.isDigit = true) :
    c ≠ '-' ∧ c ≠ '+' ∧ c ≠ '.' ∧ c ≠ ',' := by
  refine ⟨?_, ?_, ?_, ?_⟩ <;> rintro rfl <;> simp at h

theorem takeWhile_all_true (p : Char → Bool) (xs : Str) (h : ∀ c ∈ xs, p c = true) :
    xs.takeWhile p = xs ∧ xs.dropWhile p = [] := by
  induction xs with
  | nil => exact ⟨rfl, rfl⟩
  | cons c rest ih =>
    have hc : p c = true := h c (by simp)
    have ih' := ih (fun d hd => h d (by simp [hd]))
    simp [List.takeWhile_cons, List.dropWhile_cons, hc, ih'.1, ih'.2]

theorem takeWhile_append_stop (p : Char → Bool) (xs : Str) (y : Char) (ys : Str)
    (hxs : ∀ c ∈ xs, p c = true) (hy : p y = false) :
    (xs ++ y :: ys).takeWhile p = xs ∧ (xs ++ y :: ys).dropWhile p = y :: ys := by
  induction xs with
  | nil => simp [List.takeWhile_cons, List.dropWhile_cons, hy]
  | cons c rest ih =>
    have hc : p c = true := hxs c (by simp)
    have ih' := ih (fun d hd => hxs d (by simp [hd]))
    simp [List.takeWhile_cons, List.dropWhile_cons, hc, ih'.1, ih'.2]

theorem dropWhile_all_false (p : Char → Bool) (xs : Str) (h : ∀ c ∈ xs, p c = false) :
    xs.dropWhile p = xs := by
  cases xs with
  | nil => rfl
  | cons c rest => simp [List.dropWhile_cons, h c (by simp)]

theorem jsTrim_eq_self (s : Str) (h : ∀ c ∈ s, isJsWhitespace c = false) : jsTrim s = s := by
  unfold jsTrim
  rw [dropWhile_all_false _ _ h]
  rw [dropWhile_all_false _ _ (fun c hc => h c (by simpa using hc))]
  exact List.reverse_reverse s

theorem parseSign_digit (c : Char) (r : Str) (h : c.isDigit = true) :
    parseSign (c :: r) = (false, c :: r) := by
  unfold parseSign
  split
  · next heq => rw [List.cons.injEq] at heq; obtain ⟨rfl, _⟩ := heq; simp at h
  · next heq => rw [List.cons.injEq] at heq; obtain ⟨rfl, _⟩ := heq; simp at h
  · rfl

theorem parseDecimal_digits_dot (ip fp : Str) (hip : ip ≠ [])
    (hipd : ∀ c ∈ ip, c.isDigit = true) (hfpd : ∀ c ∈ fp, c.isDigit = true) :
    parseDecimal (ip ++ '.' :: fp) = some (decValue false ip fp 0, []) := by
  match ip, hip with
  | c :: ip', _ =>
    have hc : c.isDigit = true := hipd c (by simp)
    have hsplit := takeWhile_append_stop Char.isDigit (c :: ip') '.' fp hipd (by decide)
    have hfp := takeWhile_all_true Char.isDigit fp hfpd
    rw [List.cons_append] at hsplit ⊢
    unfold parseDecimal
    rw [parseSign_digit c (ip' ++ '.' :: fp) hc]
    simp only [splitDigits, hsplit.1, hsplit.2]
    show (if (List.isEmpty (c :: ip') && List.isEmpty (parseFrac ('.' :: fp)).1) = true
      then _ else _) = _
    rw [show parseFrac ('.' :: fp) = splitDigits fp from rfl]
    simp only [splitDigits, hfp.1, hfp.2]
    simp [parseExpo]

theorem parseDecimal_digits (ip : Str) (hip : ip ≠ [])
    (hipd : ∀ c ∈ ip, c.isDigit = true) :
    parseDecimal ip = some (decValue false ip [] 0, []) := by
  match ip, hip with
  | c :: ip', _ =>
    have hc := hipd c (by simp)
    have hall := takeWhile_all_true Char.isDigit (c :: ip') hipd
    unfold parseDecimal
    rw [parseSign_digit c ip' hc]
    simp only [splitDigits, hall.1, hall.2]
    show (if (List.isEmpty (c :: ip') && List.isEmpty (parseFrac []).1) = true
      then _ else _) = _
    simp [parseFrac, parseExpo]

theorem decValue_zero_ex (ip fp : Str) :
    decValue false ip fp 0 = mkRat (natOfDigits (ip ++ fp) : Int) ((10 : Nat) ^ fp.length) := by
  simp [decValue]

theorem parseAmountField_sep (s ip fp : Str) (h : stripCommas s = ip ++ '.' :: fp)
    (hip : ip ≠ []) (hipd : ∀ c ∈ ip, c.isDigit = true)
    (hfpd : ∀ c ∈ fp, c.isDigit = true) :
    parseAmountField (some s) =
      .num (mkRat (natOfDigits (ip ++ fp) : Int) ((10 : Nat) ^ fp.length)) := by
  have hs : s.isEmpty = false := by
    cases s with
    | nil =>
      rw [show stripCommas [] = [] from rfl] at h
      exact absurd h.symm (List.cons_ne_nil _ _ ∘ fun hx => (List.append_eq_nil.mp hx).2)
    | cons _ _ => rfl
  have hnws : ∀ c ∈ ip ++ '.' :: fp, isJsWhitespace c = false := by
    intro c hc
    rcases List.mem_append.mp hc with hc' | hc'
    · exact digit_not_ws c (hipd c hc')
    · rcases List.mem_cons.mp hc' with rfl | hc''
      · decide
      · exact digit_not_ws c (hfpd c hc'')
  have htrim : jsTrim (stripCommas s) = ip ++ '.' :: fp := by
    rw [h]; exact jsTrim_eq_self _ hnws
  have hparse : jsParseFloat (jsTrim (stripCommas s)) = some (decValue false ip fp 0) := by
    rw [htrim]
    unfold jsParseFloat
    rw [dropWhile_all_false _ _ hnws, parseDecimal_digits_dot ip fp hip hipd hfpd]
    rfl
  rw [show parseAmountField (some s) =
      (if s.isEmpty then JsVal.null
       else match jsParseFloat (jsTrim (stripCommas s)) with
            | some q => JsVal.num q
            | none => JsVal.nan) from rfl]
  rw [hs, hparse, decValue_zero_ex]
  simp

theorem parseAmountField_int (s ip : Str) (h : stripCommas s = ip) (hip : ip ≠ [])
    (hipd : ∀ c ∈ ip, c.isDigit = true) :
    parseAmountField (some s) = .num (mkRat (natOfDigits ip : Int) 1) := by
  have hs : s.isEmpty = false := by
    cases s with
    | nil => rw [show stripCommas [] = [] from rfl] at h; exact absurd h.symm hip
    | cons _ _ => rfl
  have hnws : ∀ c ∈ ip, isJsWhitespace c = false := fun c hc => digit_not_ws c (hipd c hc)
  have htrim : jsTrim (stripCommas s) = ip := by
    rw [h]; exact jsTrim_eq_self _ hnws
  have hparse : jsParseFloat (jsTrim (stripCommas s)) = some (decValue false ip [] 0) := by
    rw [htrim]
    unfold jsParseFloat
    rw [dropWhile_all_false _ _ hnws, parseDecimal_digits ip hip hipd]
    rfl
  rw [show parseAmountField (some s) =
      (if s.isEmpty then JsVal.null
       else match jsParseFloat (jsTrim (stripCommas s)) with
            | some q => JsVal.num q
            | none => JsVal.nan) from rfl]
  rw [hs, hparse, decValue_zero_ex]
  simp

theorem extractFromPdf_amount_eq (text : Str) :
    (extractFromPdf text).amount =
      parseAmountField
        (extractField text ("Transferred Amount".toList) (some ("ETB".toList))) := rfl

/-- C8 counterexample: a receipt whose anchored amount field reads `abc` (the
anchors are present, the content is malformed) produces `amount = NaN`, not
null, and the `NaN` enters the transaction that `processMessage` emits —
refuting the claim that a `NaN` value never enters an emitted transaction. -/
theorem malformed_amount_nan_counterexample :
    (extractFromPdf ("Transferred Amount abc ETB".toList)).amount = JsVal.nan ∧
    Option.map Tx.amount
        (processMessage (fun _ => FetchResult.pdf ("Transferred Amount abc ETB".toList))
          { text := some ("x https://cbe.com.et/r".toList) })
      = some JsVal.nan := by
  exact ⟨by decide, by decide⟩

/-- C8 (amended): a numeric field strips thousands separators before parsing,
so a digit string with separators parses to the separator-stripped value
(e.g. `"1,234.56"` to `1234.56`); the field is null exactly when the anchored
text is missing or empty; but a non-empty anchored text that fails numeric
parsing yields `NaN` — not null — and that `NaN` is stored in the emitted
transaction's `amount`. -/
theorem numeric_field_parsing
    (s ip fp text f : Str) :
    (stripCommas s = ip ++ '.' :: fp → ip ≠ [] → (∀ c ∈ ip, c.isDigit = true) →
      (∀ c ∈ fp, c.isDigit = true) →
      parseAmountField (some s) =
        .num (mkRat (natOfDigits (ip ++ fp) : Int) ((10 : Nat) ^ fp.length))) ∧
    (stripCommas s = ip → ip ≠ [] → (∀ c ∈ ip, c.isDigit = true) →
      parseAmountField (some s) = .num (mkRat (natOfDigits ip : Int) 1)) ∧
    (parseAmountField none = JsVal.null) ∧
    (parseAmountField (some []) = JsVal.null) ∧
    (extractField text ("Transferred Amount".toList) (some ("ETB".toList)) = some f →
      f ≠ [] → jsParseFloat (jsTrim (stripCommas f)) = none →
      (extractFromPdf text).amount = JsVal.nan) := by
  refine ⟨?_, ?_, rfl, rfl, ?_⟩
  · intro h hip hipd hfpd
    exact parseAmountField_sep s ip fp h hip hipd hfpd
  · intro h hip hipd
    exact parseAmountField_int s ip h hip hipd
  · intro hfield hne hparse
    rw [extractFromPdf_amount_eq, hfield]
    have hne' : f.isEmpty = false := by
      cases f with
      | nil => exact absurd rfl hne
      | cons _ _ => rfl
    rw [show parseAmountField (some f) =
        (if f.isEmpty then JsVal.null
         else match jsParseFloat (jsTrim (stripCommas f)) with
              | some q => JsVal.num q
              | none => JsVal.nan) from rfl]
    rw [hne', hparse]
    simp

/-- C8 witness: the claim's own example `"1,234.56"` parses to `1234.56`
(applying the separator clause at `ip = "1234"`, `fp = "56"`), and a concrete
malformed field stores `NaN` in the extraction result. -/
theorem numeric_field_parsing_witness :
    parseAmountField (some ("1,234.56".toList)) = .num (mkRat 123456 100) ∧
    (extractFromPdf ("Transferred Amount abc ETB".toList)).amount = JsVal.nan := by
  constructor
  · have := (numeric_field_parsing ("1,234.56".toList) ("1234".toList) ("56".toList)
      [] []).1 (by decide) (by decide) (by decide) (by decide)
    rw [this]
    decide
  · exact (numeric_field_parsing [] [] [] ("Transferred Amount abc ETB".toList)
      ("abc".toList)).2.2.2.2 (by decide) (by decide) (by decide)

theorem digit_ne_slash (c : Char) (h : c.isDigit = true) : c ≠ '/' := by
  rintro rfl; simp at h

theorem matchDigits_exact (n : Nat) (y rest : Str) (hlen : y.length = n)
    (hy : ∀ c ∈ y, c.isDigit = true) : matchDigits n (y ++ rest) = some (y, rest) := by
  unfold matchDigits
  rw [List.take_left' hlen, List.drop_left' hlen]
  have hall : y.all Char.isDigit = true := List.all_eq_true.mpr hy
  simp [hlen, hall]

theorem matchD12Sep_digits (sep : Char) (d rest : Str)
    (hlen : d.length = 1 ∨ d.length = 2) (hd : ∀ c ∈ d, c.isDigit = true)
    (hsep : sep.isDigit = false) :
    matchD12Sep sep (d ++ sep :: rest) = some (d, rest) := by
  rcases hlen with h1 | h2
  · match d, h1 with
    | [a], _ =>
      have ha : a.isDigit = true := hd a (by simp)
      simp [matchD12Sep, ha, hsep]
  · match d, h2 with
    | [a, b], _ =>
      have ha : a.isDigit = true := hd a (by simp)
      have hb : b.isDigit = true := hd b (by simp)
      simp [matchD12Sep, ha, hb]

theorem dateTryAt_shape (d m y rest : Str)
    (hd1 : d.length = 1 ∨ d.length = 2) (hdd : ∀ c ∈ d, c.isDigit = true)
    (hm1 : m.length = 1 ∨ m.length = 2) (hmd : ∀ c ∈ m, c.isDigit = true)
    (hy : y.length = 4) (hyd : ∀ c ∈ y, c.isDigit = true) :
    dateTryAt (d ++ '/' :: (m ++ '/' :: (y ++ rest))) = some (d, m, y) := by
  unfold dateTryAt
  rw [matchD12Sep_digits '/' d (m ++ '/' :: (y ++ rest)) hd1 hdd (by decide)]
  dsimp only
  rw [matchD12Sep_digits '/' m (y ++ rest) hm1 hmd (by decide)]
  dsimp only
  rw [matchDigits_exact 4 y rest hy hyd]

theorem dateSearch_of_head (s : Str) (t : Str × Str × Str) (hne : s ≠ [])
    (h : dateTryAt s = some t) : dateSearch s = some t := by
  match s, hne with
  | c :: r, _ =>
    unfold dateSearch
    rw [h]

theorem splitOnChar_cons (sep c : Char) (rest : Str) :
    splitOnChar sep (c :: rest) =
      if c = sep then [] :: splitOnChar sep rest
      else
        match splitOnChar sep rest with
        | h :: t => (c :: h) :: t
        | [] => [[c]] := rfl

theorem splitOnChar_no_sep (sep : Char) (xs : Str) (h : ∀ c ∈ xs, c ≠ sep) :
    splitOnChar sep xs = [xs] := by
  induction xs with
  | nil => rfl
  | cons c rest ih =>
    have hc : c ≠ sep := h c (by simp)
    rw [splitOnChar_cons, ih (fun d hd => h d (by simp [hd]))]
    simp [hc]

theorem splitOnChar_append (sep : Char) (xs rest : Str) (h : ∀ c ∈ xs, c ≠ sep) :
    splitOnChar sep (xs ++ sep :: rest) = xs :: splitOnChar sep rest := by
  induction xs with
  | nil =>
    rw [List.nil_append, splitOnChar_cons]
    simp
  | cons c xs' ih =>
    have hc : c ≠ sep := h c (by simp)
    rw [List.cons_append, splitOnChar_cons, ih (fun d hd => h d (by simp [hd]))]
    simp [hc]

theorem normalizeDateStr_shape (d m y rest : Str)
    (hd1 : d.length = 1 ∨ d.length = 2) (hdd : ∀ c ∈ d, c.isDigit = true)
    (hm1 : m.length = 1 ∨ m.length = 2) (hmd : ∀ c ∈ m, c.isDigit = true)
    (hy : y.length = 4) (hyd : ∀ c ∈ y, c.isDigit = true) :
    normalizeDateStr (d ++ '/' :: (m ++ '/' :: (y ++ rest)))
      = some (y ++ '-' :: (padStart2 m ++ '-' :: padStart2 d)) := by
  have hne : d ++ '/' :: (m ++ '/' :: (y ++ rest)) ≠ [] := by
    cases d <;> simp
  unfold normalizeDateStr
  rw [dateSearch_of_head _ (d, m, y) hne
    (dateTryAt_shape d m y rest hd1 hdd hm1 hmd hy hyd)]
  dsimp only
  rw [splitOnChar_append '/' d (m ++ '/' :: y) (fun c hc => digit_ne_slash c (hdd c hc))]
  rw [splitOnChar_append '/' m y (fun c hc => digit_ne_slash c (hmd c hc))]
  rw [splitOnChar_no_sep '/' y (fun c hc => digit_ne_slash c (hyd c hc))]
  rfl

/-- C1 counterexample: on the specification's own example
`"3/4/2024, 10:15:00 AM"` the normalizer yields date `"2024-04-03"` — the
FIRST slash component `3` lands in the day position and the SECOND component
`4` in the month position — not `"2024-03-04"` as claimed; the same holds
through `extractFromPdf` on a receipt carrying that date field (the time is
extracted as claimed). -/
theorem date_component_order_counterexample :
    normalizeDateStr ("3/4/2024, 10:15:00 AM".toList) = some ("2024-04-03".toList) ∧
    some ("2024-04-03".toList) ≠ some ("2024-03-04".toList) ∧
    (extractFromPdf
        ("Payment Date & Time 3/4/2024, 10:15:00 AM Reference No. 1".toList)).date
      = .str ("2024-04-03".toList) ∧
    (extractFromPdf
        ("Payment Date & Time 3/4/2024, 10:15:00 AM Reference No. 1".toList)).time
      = .str ("10:15:00 AM".toList) := by
  refine ⟨by decide, by decide, by decide, by decide⟩

/-- C1 (amended): for every date string whose date part matches
`\d{1,2}\/\d{1,2}\/\d{4}` at its head, the canonical date is `YYYY-MM-DD`
with the SECOND slash component zero-padded into the month position and the
FIRST into the day position (the source destructures `[day, month, year]`);
in particular `"3/4/2024, 10:15:00 AM"` yields date `"2024-04-03"` and time
`"10:15:00 AM"`. -/
theorem date_component_order (d m y rest : Str)
    (hd1 : d.length = 1 ∨ d.length = 2) (hdd : ∀ c ∈ d, c.isDigit = true)
    (hm1 : m.length = 1 ∨ m.length = 2) (hmd : ∀ c ∈ m, c.isDigit = true)
    (hy : y.length = 4) (hyd : ∀ c ∈ y, c.isDigit = true) :
    normalizeDateStr (d ++ '/' :: (m ++ '/' :: (y ++ rest)))
      = some (y ++ '-' :: (padStart2 m ++ '-' :: padStart2 d)) ∧
    normalizeDateStr ("3/4/2024, 10:15:00 AM".toList) = some ("2024-04-03".toList) ∧
    timeSearch ("3/4/2024, 10:15:00 AM".toList) = some ("10:15:00 AM".toList) :=
  ⟨normalizeDateStr_shape d m y rest hd1 hdd hm1 hmd hy hyd, by decide, by decide⟩

/-- C1 witness: the general statement applied at `3 / 4 / 2024` with the
trailing `", 10:15:00 AM"`. -/
theorem date_component_order_witness :
    normalizeDateStr ("3".toList ++ '/' :: ("4".toList ++ '/' ::
        ("2024".toList ++ ", 10:15:00 AM".toList)))
      = some ("2024".toList ++ '-' ::
          (padStart2 ("4".toList) ++ '-' :: padStart2 ("3".toList))) :=
  (date_component_order ("3".toList) ("4".toList) ("2024".toList)
    (", 10:15:00 AM".toList) (by decide) (by decide) (by decide) (by decide)
    (by decide) (by decide)).1

theorem idxOfFirst_some_spec (pat : Str) :
    ∀ (s : Str) (i : Nat), idxOfFirst pat s = some i →
      pat.isPrefixOf (s.drop i) = true ∧
        ∀ j, j < i → pat.isPrefixOf (s.drop j) = false := by
  intro s
  induction s with
  | nil =>
    intro i h
    unfold idxOfFirst at h
    split at h
    · next hp =>
      obtain rfl : 0 = i := Option.some.inj h
      exact ⟨hp, fun j hj => absurd hj (Nat.not_lt_zero j)⟩
    · exact absurd h (Option.noConfusion)
  | cons c rest ih =>
    intro i h
    unfold idxOfFirst at h
    split at h
    · next hp =>
      obtain rfl : 0 = i := Option.some.inj h
      exact ⟨hp, fun j hj => absurd hj (Nat.not_lt_zero j)⟩
    · next hp =>
      rw [Option.map_eq_some'] at h
      obtain ⟨i', hi', rfl⟩ := h
      obtain ⟨h1, h2⟩ := ih i' hi'
      refine ⟨by simpa using h1, ?_⟩
      intro j hj
      match j with
      | 0 => simpa using Bool.eq_false_iff.mpr hp
      | j' + 1 =>
        have : j' < i' := by omega
        simpa using h2 j' this

theorem idxOfFirst_none_spec (pat : Str) :
    ∀ (s : Str), idxOfFirst pat s = none → ∀ j, pat.isPrefixOf (s.drop j) = false := by
  intro s
  induction s with
  | nil =>
    intro h j
    unfold idxOfFirst at h
    split at h
    · exact absurd h (Option.noConfusion)
    · next hp => simpa using Bool.eq_false_iff.mpr hp
  | cons c rest ih =>
    intro h j
    unfold idxOfFirst at h
    split at h
    · exact absurd h (Option.noConfusion)
    · next hp =>
      rw [Option.map_eq_none'] at h
      match j with
      | 0 => simpa using Bool.eq_false_iff.mpr hp
      | j' + 1 => simpa using ih h j'

theorem idxOfFirst_le_of_prefix (pat s : Str) (j : Nat)
    (h : pat.isPrefixOf (s.drop j) = true) :
    ∃ i, idxOfFirst pat s = some i ∧ i ≤ j := by
  match hx : idxOfFirst pat s with
  | none => exact absurd h (by simp [idxOfFirst_none_spec pat s hx j])
  | some i =>
    refine ⟨i, rfl, ?_⟩
    by_contra hij
    have hji : j < i := by omega
    exact absurd h (by simp [(idxOfFirst_some_spec pat s i hx).2 j hji])

/-- The code's `indexOf` search finds exactly the least match position. -/
theorem idxOfFirst_eq_some_of_first (pat s : Str) (i : Nat)
    (h1 : pat.isPrefixOf (s.drop i) = true)
    (h2 : ∀ j, j < i → pat.isPrefixOf (s.drop j) = false) :
    idxOfFirst pat s = some i := by
  obtain ⟨i', hi', hle⟩ := idxOfFirst_le_of_prefix pat s i h1
  obtain ⟨h1', _⟩ := idxOfFirst_some_spec pat s i' hi'
  rcases Nat.lt_or_ge i' i with hlt | hge
  · exact absurd h1' (by simp [h2 i' hlt])
  · have : i = i' := Nat.le_antisymm hge hle
    rw [← this] at hi'
    exact hi'

theorem matchesAt_iff_isPrefixOf (pat text : Str) (i : Nat) :
    MatchesAt pat text i ↔ pat.isPrefixOf (text.drop i) = true := by
  rw [MatchesAt, List.isPrefixOf_iff_prefix]

theorem jsIndexOf_zero_of_first (text s : Str) (i : Nat)
    (hm : MatchesAt s text i) (hmin : ∀ j, j < i → ¬ MatchesAt s text j) :
    jsIndexOf text s 0 = some i := by
  unfold jsIndexOf
  rw [List.drop_zero]
  rw [idxOfFirst_eq_some_of_first s text i ((matchesAt_iff_isPrefixOf s text i).mp hm)
    (fun j hj => by
      have := hmin j hj
      rw [matchesAt_iff_isPrefixOf] at this
      exact Bool.eq_false_iff.mpr this)]
  simp

theorem jsIndexOf_from_none (text e : Str) (si : Nat)
    (habs : ∀ j, si ≤ j → ¬ MatchesAt e text j) :
    jsIndexOf text e si = none := by
  unfold jsIndexOf
  match hx : idxOfFirst e (text.drop si) with
  | none => rfl
  | some k =>
    exfalso
    have h1 := (idxOfFirst_some_spec e (text.drop si) k hx).1
    rw [List.drop_drop] at h1
    exact habs (si + k) (Nat.le_add_right si k) ((matchesAt_iff_isPrefixOf _ _ _).mpr h1)

theorem jsIndexOf_from_first (text e : Str) (si j : Nat)
    (hm : MatchesAt e text j) (hge : si ≤ j)
    (hmin : ∀ k, si ≤ k → k < j → ¬ MatchesAt e text k) :
    jsIndexOf text e si = some j := by
  unfold jsIndexOf
  rw [idxOfFirst_eq_some_of_first e (text.drop si) (j - si) ?hpre ?hmin']
  · simp [Nat.add_sub_cancel' hge]
  case hpre =>
    rw [List.drop_drop, Nat.add_sub_cancel' hge]
    exact (matchesAt_iff_isPrefixOf e text j).mp hm
  case hmin' =>
    intro k hk
    rw [List.drop_drop]
    have := hmin (si + k) (Nat.le_add_right si k) (by omega)
    rw [matchesAt_iff_isPrefixOf] at this
    exact Bool.eq_false_iff.mpr this

/-- C2: anchor-based field extraction.  If the start marker never occurs, the
field is null.  If it first occurs at `i`: with no (or an empty, falsy) end
marker the field is the trimmed remainder from the end of the marker; with a
non-empty end marker, the field is the trimmed substring from the end of the
start marker up to the FIRST occurrence of the end marker at or after that
point, and null when the end marker never occurs there — never a truncated
string. -/
theorem anchor_field_extraction (text s : Str) (e : Option Str) :
    ((∀ i, ¬ MatchesAt s text i) → extractField text s e = none) ∧
    (∀ i, MatchesAt s text i → (∀ j, j < i → ¬ MatchesAt s text j) →
      ((e = none ∨ e = some [] →
          extractField text s e = some (jsTrim (text.drop (i + s.length)))) ∧
       (∀ eS, e = some eS → eS ≠ [] →
         ((∀ j, i + s.length ≤ j → ¬ MatchesAt eS text j) →
            extractField text s e = none) ∧
         (∀ j, MatchesAt eS text j → i + s.length ≤ j →
            (∀ k, i + s.length ≤ k → k < j → ¬ MatchesAt eS text k) →
            extractField text s e =
              some (jsTrim ((text.take j).drop (i + s.length))))))) := by
  constructor
  · intro habs
    have hnone : jsIndexOf text s 0 = none := by
      unfold jsIndexOf
      match hx : idxOfFirst s (text.drop 0) with
      | none => rfl
      | some k =>
        exfalso
        have h1 := (idxOfFirst_some_spec s (text.drop 0) k hx).1
        rw [List.drop_zero] at h1
        exact habs k ((matchesAt_iff_isPrefixOf _ _ _).mpr h1)
    unfold extractField
    rw [hnone]
  · intro i hm hmin
    have hidx : jsIndexOf text s 0 = some i := jsIndexOf_zero_of_first text s i hm hmin
    constructor
    · rintro (rfl | rfl)
      · unfold extractField
        rw [hidx]
      · unfold extractField
        rw [hidx]
        simp
    · intro eS heS hne
      subst heS
      have hne' : eS.isEmpty = false := by
        cases eS with
        | nil => exact absurd rfl hne
        | cons _ _ => rfl
      constructor
      · intro habs
        unfold extractField
        rw [hidx]
        dsimp only
        rw [hne']
        rw [jsIndexOf_from_none text eS (i + s.length) habs]
        simp
      · intro j hj hge hminE
        unfold extractField
        rw [hidx]
        dsimp only
        rw [hne']
        rw [jsIndexOf_from_first text eS (i + s.length) j hj hge hminE]
        simp

/-- C2 witness: on `"a START  val  END z"` with markers `START`/`END` the
extracted field is the trimmed text `"val"` between the first occurrences. -/
theorem anchor_field_extraction_witness :
    extractField ("a START  val  END z".toList) ("START".toList)
        (some ("END".toList)) = some ("val".toList) := by
  have h := ((anchor_field_extraction ("a START  val  END z".toList)
      ("START".toList) (some ("END".toList))).2 2 (by decide) (by decide)).2
      ("END".toList) rfl (by decide)
  rw [h.2 14 (by decide) (by decide) (by decide)]
  decide

/-- The globally well-behaved comparator the batch sort agrees with on
transactions whose dates all parse (`null` parsing as the epoch). -/
def batchGle (a b : Tx) : Bool :=
  decide ((jsDateValue b.date).getD 0 ≤ (jsDateValue a.date).getD 0)

theorem batchDateLe_eq_gle (a b : Tx) (ha : (jsDateValue a.date).isSome = true)
    (hb : (jsDateValue b.date).isSome = true) : batchDateLe a b = batchGle a b := by
  unfold batchDateLe batchGle
  match hx : jsDateValue a.date, hy : jsDateValue b.date with
  | some x, some y => simp
  | none, _ => rw [hx] at ha; simp at ha
  | some x, none => rw [hy] at hb; simp at hb

theorem batchGle_trans (a b c : Tx) (h1 : batchGle a b) (h2 : batchGle b c) :
    batchGle a c = true := by
  unfold batchGle at h1 h2 ⊢
  rw [decide_eq_true_eq] at h1 h2 ⊢
  omega

theorem batchGle_total (a b : Tx) : batchGle a b || batchGle b a := by
  unfold batchGle
  rcases Int.le_total ((jsDateValue b.date).getD 0) ((jsDateValue a.date).getD 0) with h | h
  · simp [h]
  · simp [h]

/-- C4 counterexample, two parts.  First, the batch sort puts a record with a
null date (which `new Date(null)` reads as the 1970 epoch) BEFORE a record
with the parsable date `1950-01-02`, so a record with a null date does not
sort as the oldest.  Second, a record whose date string is invalid makes the
comparator return `NaN` (which `sort` treats as 0) against every record, and
under the sort it can be DISPLACED: placed between records dated `2024-01-01`
and `2024-06-01`, it comes out after both, not in its input position. -/
theorem batch_sort_null_date_counterexample :
    (jsSort batchDateLe
        [{ amount := .null, date := .null, time := .null, receiver := .null,
           payer := .null, reason := .null, totalAmount := .null, currentBalance := .null },
         { amount := .null, date := .str ("1950-01-02".toList), time := .null,
           receiver := .null, payer := .null, reason := .null, totalAmount := .null,
           currentBalance := .null }]
      = [{ amount := .null, date := .null, time := .null, receiver := .null,
           payer := .null, reason := .null, totalAmount := .null, currentBalance := .null },
         { amount := .null, date := .str ("1950-01-02".toList), time := .null,
           receiver := .null, payer := .null, reason := .null, totalAmount := .null,
           currentBalance := .null }] ∧
    (jsParseDate ("1950-01-02".toList)).isSome = true) ∧
    (jsSort batchDateLe
        [{ amount := .null, date := .str ("2024-01-01".toList), time := .null,
           receiver := .null, payer := .null, reason := .null, totalAmount := .null,
           currentBalance := .null },
         { amount := .null, date := .str ("not-a-date".toList), time := .null,
           receiver := .null, payer := .null, reason := .null, totalAmount := .null,
           currentBalance := .null },
         { amount := .null, date := .str ("2024-06-01".toList), time := .null,
           receiver := .null, payer := .null, reason := .null, totalAmount := .null,
           currentBalance := .null }]
      = [{ amount := .null, date := .str ("2024-06-01".toList), time := .null,
           receiver := .null, payer := .null, reason := .null, totalAmount := .null,
           currentBalance := .null },
         { amount := .null, date := .str ("2024-01-01".toList), time := .null,
           receiver := .null, payer := .null, reason := .null, totalAmount := .null,
           currentBalance := .null },
         { amount := .null, date := .str ("not-a-date".toList), time := .null,
           receiver := .null, payer := .null, reason := .null, totalAmount := .null,
           currentBalance := .null }] ∧
    jsDateValue (.str ("not-a-date".toList)) = none) := by
  exact ⟨⟨by decide, by decide⟩, by decide, by decide⟩

/-- C4 (amended): after a batch is processed the transaction list is sorted
by date newest first with a stable sort, where a null date is read as the
1970-01-01 epoch (so it sorts between pre-1970 and post-1970 dates, not as
the oldest), stated here for batches whose extracted records all have dates
that `new Date` can read (null included); records with equal dates keep their
processing order. -/
theorem batch_sorted_newest_first (fetch : Str → FetchResult) (msgs : List Message)
    (h : ∀ t ∈ msgs.filterMap (processMessage fetch), (jsDateValue t.date).isSome = true) :
    List.Perm (processBatch fetch msgs) (msgs.filterMap (processMessage fetch)) ∧
    (processBatch fetch msgs).Pairwise
      (fun a b => (jsDateValue b.date).getD 0 ≤ (jsDateValue a.date).getD 0) ∧
    (∀ a b, List.Sublist [a, b] (msgs.filterMap (processMessage fetch)) →
      jsDateValue a.date = jsDateValue b.date →
      List.Sublist [a, b] (processBatch fetch msgs)) := by
  have heq : processBatch fetch msgs =
      jsSort batchGle (msgs.filterMap (processMessage fetch)) := by
    unfold processBatch
    exact jsSort_congr _ _ _ (fun a ha b hb => batchDateLe_eq_gle a b (h a ha) (h b hb))
  refine ⟨?_, ?_, ?_⟩
  · rw [heq]; exact jsSort_perm _ _
  · rw [heq]
    have hs := jsSort_sorted batchGle batchGle_trans batchGle_total
      (msgs.filterMap (processMessage fetch))
    exact hs.imp (fun hab => by
      have := hab
      unfold batchGle at this
      exact decide_eq_true_eq.mp this)
  · intro a b hsub hdate
    rw [heq]
    apply jsSort_pair_sublist batchGle batchGle_trans batchGle_total ?_ hsub
    unfold batchGle
    rw [hdate]
    simp

/-- C4 witness: a two-message batch whose receipts carry dates
`3/4/2024` and `5/4/2024` comes out as a permutation of its extraction
order. -/
theorem batch_sorted_newest_first_witness :
    List.Perm
      (processBatch
        (fun l => FetchResult.pdf
          (if l = "https://cbe.com.et/a".toList then
            "Payment Date & Time 3/4/2024, 10:15:00 AM Reference No. 1".toList
          else "Payment Date & Time 5/4/2024, 10:15:00 AM Reference No. 1".toList))
        [{ text := some ("x https://cbe.com.et/a".toList) },
         { text := some ("x https://cbe.com.et/b".toList) }])
      ([{ text := some ("x https://cbe.com.et/a".toList) },
        { text := some ("x https://cbe.com.et/b".toList) }].filterMap
        (processMessage (fun l => FetchResult.pdf
          (if l = "https://cbe.com.et/a".toList then
            "Payment Date & Time 3/4/2024, 10:15:00 AM Reference No. 1".toList
          else "Payment Date & Time 5/4/2024, 10:15:00 AM Reference No. 1".toList)))) :=
  (batch_sorted_newest_first _ _ (by decide)).1

theorem lexLt_asymm : ∀ (x y : Str), lexLt x y = true → lexLt y x = false
  | [], [] => by simp [lexLt]
  | [], _ :: _ => by intro _; simp [lexLt]
  | _ :: _, [] => by simp [lexLt]
  | a :: as, b :: bs => by
    intro h
    unfold lexLt at h ⊢
    by_cases hab : a < b
    · have hba : ¬ b < a := lt_asymm hab
      simp [hba, hab]
    · simp only [hab, if_false] at h
      by_cases hba : b < a
      · simp [hba] at h
      · simp only [hba, if_false] at h
        simp [hba, hab, lexLt_asymm as bs h]

theorem lexLt_trans : ∀ (x y z : Str),
    lexLt x y = true → lexLt y z = true → lexLt x z = true
  | [], [], _ => by simp [lexLt]
  | [], _ :: _, z => by
    intro _ h2
    cases z with
    | nil => simp [lexLt] at h2
    | cons c cs => simp [lexLt]
  | _ :: _, [], _ => by simp [lexLt]
  | a :: as, b :: bs, z => by
    intro h1 h2
    cases z with
    | nil => simp [lexLt] at h2
    | cons c cs =>
      unfold lexLt at h1 h2 ⊢
      by_cases hab : a < b
      · by_cases hbc : b < c
        · simp [lt_trans hab hbc]
        · simp only [hbc, if_false] at h2
          by_cases hcb : c < b
          · simp [hcb] at h2
          · have : b = c := le_antisymm (not_lt.mp hcb) (not_lt.mp hbc)
            subst this
            simp [hab]
      · simp only [hab, if_false] at h1
        by_cases hba : b < a
        · simp [hba] at h1
        · simp only [hba, if_false] at h1
          have : a = b := le_antisymm (not_lt.mp hba) (not_lt.mp hab)
          subst this
          by_cases hbc : a < c
          · simp [hbc]
          · simp only [hbc, if_false] at h2 ⊢
            by_cases hcb : c < a
            · simp [hcb] at h2
            · simp only [hcb, if_false] at h2 ⊢
              exact lexLt_trans as bs cs h1 h2

theorem lexLt_connex : ∀ (x y : Str), lexLt x y = false → lexLt y x = false → x = y
  | [], [] => by intros; rfl
  | [], _ :: _ => by intro h _; simp [lexLt] at h
  | _ :: _, [] => by intro _ h; simp [lexLt] at h
  | a :: as, b :: bs => by
    intro h1 h2
    unfold lexLt at h1 h2
    by_cases hab : a < b
    · simp [hab] at h1
    · by_cases hba : b < a
      · simp [hba, hab] at h2
      · have hEq : a = b := le_antisymm (not_lt.mp hba) (not_lt.mp hab)
        subst hEq
        simp only [lt_irrefl, if_false, hab] at h1 h2
        rw [lexLt_connex as bs (by simpa using h1) (by simpa using h2)]

theorem optLt_asymm {α : Type} [LinearOrder α] (x y : Option α)
    (h : optLt x y = true) : optLt y x = false := by
  match x, y with
  | some a, some b =>
    simp only [optLt, decide_eq_true_eq] at h
    simp [optLt, le_of_lt h, not_lt.mpr (le_of_lt h)]
  | none, _ => simp [optLt] at h
  | some _, none => simp [optLt] at h

theorem jsLtVal_asymm (a b : JsVal) (h : jsLtVal a b = true) : jsLtVal b a = false := by
  cases a <;> cases b <;> simp only [jsLtVal] at h ⊢ <;>
    first
    | exact lexLt_asymm _ _ h
    | exact optLt_asymm _ _ h

theorem sortKeyLt_asymm (col : Str) (a b : Tx) (h : sortKeyLt col a b = true) :
    sortKeyLt col b a = false := by
  unfold sortKeyLt at h ⊢
  by_cases hd : col = "date".toList
  · simp only [hd, if_true] at h ⊢
    exact optLt_asymm _ _ h
  · simp only [hd, if_false] at h ⊢
    exact jsLtVal_asymm _ _ h

theorem sortLe_asc (col : Str) (a b : Tx) :
    sortLe col ("asc".toList) a b = !sortKeyLt col b a := by
  unfold sortLe sortCmp
  by_cases h1 : sortKeyLt col a b
  · simp [h1, sortKeyLt_asymm col a b h1]
  · by_cases h2 : sortKeyLt col b a <;> simp [h1, h2]

theorem sortLe_not_asc (col dir : Str) (a b : Tx) (hdir : dir ≠ "asc".toList) :
    sortLe col dir a b = !sortKeyLt col a b := by
  have hdir' : dir ≠ ['a', 's', 'c'] := fun hx => hdir hx
  unfold sortLe sortCmp
  by_cases h1 : sortKeyLt col a b
  · simp [h1, hdir']
  · by_cases h2 : sortKeyLt col b a <;> simp [h1, h2, hdir']

/-- Numeric sort-key of a record: the `Date` timestamp for the date column,
`ToNumber` of the field otherwise. -/
def keyNumQ (col : Str) (t : Tx) : Option ℚ :=
  if col = "date".toList then (jsDateValue (getField t col)).map (fun z => (z : ℚ))
  else jsToNumber (getField t col)

/-- String sort-key of a record (defaulting for non-string fields, which the
string-mode hypotheses exclude). -/
def keyStrD (col : Str) (t : Tx) : Str :=
  match getField t col with
  | .str s => s
  | _ => []

/-- The record's value under the sort key is an unexceptional number: a valid
date for the date column, otherwise a non-string value with a numeric
coercion (no `NaN`). -/
def NumComparable (col : Str) (t : Tx) : Prop :=
  (keyNumQ col t).isSome = true ∧
    (col = "date".toList ∨ ∀ s, getField t col ≠ .str s)

/-- The record's value under a non-date sort key is a string (compared
lexicographically). -/
def StrKeyed (col : Str) (t : Tx) : Prop :=
  col ≠ "date".toList ∧ ∃ s, getField t col = .str s

/-- Every record of the collection has a comparable key of one uniform kind. -/
def ComparableKeys (col : Str) (data : List Tx) : Prop :=
  (∀ t ∈ data, NumComparable col t) ∨ (∀ t ∈ data, StrKeyed col t)

theorem sortKeyLt_eq_num (col : Str) (a b : Tx)
    (ha : NumComparable col a) (hb : NumComparable col b) :
    sortKeyLt col a b = decide ((keyNumQ col a).getD 0 < (keyNumQ col b).getD 0) := by
  obtain ⟨ha1, ha2⟩ := ha
  obtain ⟨hb1, hb2⟩ := hb
  by_cases hd : col = "date".toList
  · subst hd
    have hxe : ∃ x, jsDateValue (getField a ("date".toList)) = some x := by
      rcases hopt : jsDateValue (getField a ("date".toList)) with _ | x
      · unfold keyNumQ at ha1
        rw [if_pos rfl, hopt] at ha1
        simp at ha1
      · exact ⟨x, rfl⟩
    have hye : ∃ y, jsDateValue (getField b ("date".toList)) = some y := by
      rcases hopt : jsDateValue (getField b ("date".toList)) with _ | y
      · unfold keyNumQ at hb1
        rw [if_pos rfl, hopt] at hb1
        simp at hb1
      · exact ⟨y, rfl⟩
    obtain ⟨x, hx⟩ := hxe
    obtain ⟨y, hy⟩ := hye
    unfold sortKeyLt keyNumQ
    rw [if_pos rfl, if_pos rfl, if_pos rfl, hx, hy]
    simp [optLt]
  · unfold sortKeyLt
    simp only [keyNumQ, hd, if_false] at ha1 hb1 ⊢
    have hastr : ∀ s, getField a col ≠ .str s := ha2.resolve_left hd
    have hbstr : ∀ s, getField b col ≠ .str s := hb2.resolve_left hd
    have harm : jsLtVal (getField a col) (getField b col)
        = optLt (jsToNumber (getField a col)) (jsToNumber (getField b col)) := by
      cases hga : getField a col <;> cases hgb : getField b col <;>
        simp only [jsLtVal] <;>
        first
        | rfl
        | exact absurd hga (by exact hastr _)
        | exact absurd hgb (by exact hbstr _)
    rw [harm]
    match hx : jsToNumber (getField a col), hy : jsToNumber (getField b col) with
    | some x, some y => simp [optLt, hx, hy, keyNumQ, hd]
    | none, _ => rw [hx] at ha1; simp at ha1
    | some _, none => rw [hy] at hb1; simp at hb1

theorem sortKeyLt_eq_str (col : Str) (a b : Tx)
    (ha : StrKeyed col a) (hb : StrKeyed col b) :
    sortKeyLt col a b = lexLt (keyStrD col a) (keyStrD col b) := by
  obtain ⟨hd, sa, hsa⟩ := ha
  obtain ⟨_, sb, hsb⟩ := hb
  unfold sortKeyLt keyStrD
  rw [if_neg hd, hsa, hsb]
  rfl

/-- The four globally well-behaved comparators `sortData`'s comparator agrees
with on uniformly-keyed collections. -/
def gleNumAsc (col : Str) (a b : Tx) : Bool :=
  decide ((keyNumQ col a).getD 0 ≤ (keyNumQ col b).getD 0)

def gleNumDesc (col : Str) (a b : Tx) : Bool :=
  decide ((keyNumQ col b).getD 0 ≤ (keyNumQ col a).getD 0)

def gleStrAsc (col : Str) (a b : Tx) : Bool := !lexLt (keyStrD col b) (keyStrD col a)

def gleStrDesc (col : Str) (a b : Tx) : Bool := !lexLt (keyStrD col a) (keyStrD col b)

theorem gleNumAsc_trans (col : Str) (a b c : Tx) (h1 : gleNumAsc col a b)
    (h2 : gleNumAsc col b c) : gleNumAsc col a c = true := by
  unfold gleNumAsc at h1 h2 ⊢
  rw [decide_eq_true_eq] at h1 h2 ⊢
  exact le_trans h1 h2

theorem gleNumAsc_total (col : Str) (a b : Tx) : gleNumAsc col a b || gleNumAsc col b a := by
  unfold gleNumAsc
  rcases le_total ((keyNumQ col a).getD 0) ((keyNumQ col b).getD 0) with h | h <;> simp [h]

theorem gleNumDesc_trans (col : Str) (a b c : Tx) (h1 : gleNumDesc col a b)
    (h2 : gleNumDesc col b c) : gleNumDesc col a c = true := by
  unfold gleNumDesc at h1 h2 ⊢
  rw [decide_eq_true_eq] at h1 h2 ⊢
  exact le_trans h2 h1

theorem gleNumDesc_total (col : Str) (a b : Tx) :
    gleNumDesc col a b || gleNumDesc col b a := by
  unfold gleNumDesc
  rcases le_total ((keyNumQ col a).getD 0) ((keyNumQ col b).getD 0) with h | h <;> simp [h]

theorem notLexLt_trans (x y z : Str) (h1 : lexLt y x = false) (h2 : lexLt z y = false) :
    lexLt z x = false := by
  by_cases hzx : lexLt z x = true
  · by_cases hyz : lexLt y z = true
    · have := lexLt_trans y z x hyz hzx
      rw [this] at h1
      exact absurd h1 (by simp)
    · have hEq : y = z := lexLt_connex y z (Bool.eq_false_iff.mpr hyz) h2
      subst hEq
      rw [hzx] at h1
      exact absurd h1 (by simp)
  · exact Bool.eq_false_iff.mpr hzx

theorem gleStrAsc_trans (col : Str) (a b c : Tx) (h1 : gleStrAsc col a b)
    (h2 : gleStrAsc col b c) : gleStrAsc col a c = true := by
  unfold gleStrAsc at h1 h2 ⊢
  rw [Bool.not_eq_true'] at h1 h2
  rw [Bool.not_eq_true']
  exact notLexLt_trans _ _ _ h1 h2

theorem gleStrAsc_total (col : Str) (a b : Tx) : gleStrAsc col a b || gleStrAsc col b a := by
  unfold gleStrAsc
  by_cases h : lexLt (keyStrD col b) (keyStrD col a) = true
  · simp [lexLt_asymm _ _ h]
  · simp [Bool.eq_false_iff.mpr h]

theorem gleStrDesc_trans (col : Str) (a b c : Tx) (h1 : gleStrDesc col a b)
    (h2 : gleStrDesc col b c) : gleStrDesc col a c = true := by
  unfold gleStrDesc at h1 h2 ⊢
  rw [Bool.not_eq_true'] at h1 h2
  rw [Bool.not_eq_true']
  exact notLexLt_trans _ _ _ h2 h1

theorem gleStrDesc_total (col : Str) (a b : Tx) :
    gleStrDesc col a b || gleStrDesc col b a := by
  unfold gleStrDesc
  by_cases h : lexLt (keyStrD col a) (keyStrD col b) = true
  · simp [lexLt_asymm _ _ h]
  · simp [Bool.eq_false_iff.mpr h]

theorem eq_of_perm_of_pairwise_of_antisymm (R : α → α → Bool) :
    ∀ (l₁ l₂ : List α), List.Perm l₁ l₂ → l₁.Pairwise (R · ·) → l₂.Pairwise (R · ·) →
      (∀ a ∈ l₁, ∀ b ∈ l₁, R a b = true → R b a = true → a = b) → l₁ = l₂ := by
  intro l₁
  induction l₁ with
  | nil =>
    intro l₂ hp _ _ _
    exact List.Perm.nil_eq hp
  | cons a t₁ ih =>
    intro l₂ hp h1 h2 hanti
    cases l₂ with
    | nil => exact absurd hp.length_eq (by simp)
    | cons b t₂ =>
      by_cases hab : a = b
      · subst hab
        have hp' : List.Perm t₁ t₂ := List.Perm.cons_inv hp
        have := ih t₂ hp' h1.of_cons h2.of_cons
          (fun x hx y hy hxy hyx => hanti x (by simp [hx]) y (by simp [hy]) hxy hyx)
        rw [this]
      · have ha : a ∈ t₂ := by
          have := hp.subset (List.mem_cons_self a t₁)
          rcases List.mem_cons.mp this with h | h
          · exact absurd h hab
          · exact h
        have hb : b ∈ t₁ := by
          have := hp.symm.subset (List.mem_cons_self b t₂)
          rcases List.mem_cons.mp this with h | h
          · exact absurd h.symm hab
          · exact h
        have hRab : R a b = true := (List.pairwise_cons.mp h1).1 b hb
        have hRba : R b a = true := (List.pairwise_cons.mp h2).1 a ha
        exact absurd (hanti a (by simp) b (by simp [hb]) hRab hRba) hab

theorem jsSort_desc_eq_reverse_asc (data : List Tx) (gleA gleD : Tx → Tx → Bool)
    (htransA : ∀ a b c, gleA a b → gleA b c → gleA a c)
    (htotalA : ∀ a b, gleA a b || gleA b a)
    (htransD : ∀ a b c, gleD a b → gleD b c → gleD a c)
    (htotalD : ∀ a b, gleD a b || gleD b a)
    (hflip : ∀ a b, gleD b a = gleA a b)
    (hanti : ∀ a ∈ data, ∀ b ∈ data, gleD a b = true → gleD b a = true → a = b) :
    jsSort gleD data = (jsSort gleA data).reverse := by
  have hmemD : ∀ x ∈ jsSort gleD data, x ∈ data :=
    fun x hx => (jsSort_perm gleD data).subset hx
  apply eq_of_perm_of_pairwise_of_antisymm gleD
  · exact ((jsSort_perm gleD data).trans
      ((jsSort_perm gleA data).symm)).trans (List.reverse_perm _).symm
  · exact jsSort_sorted gleD htransD htotalD data
  · rw [List.pairwise_reverse]
    exact (jsSort_sorted gleA htransA htotalA data).imp (fun h => by rw [hflip]; exact h)
  · intro x hx y hy hxy hyx
    exact hanti x (hmemD x hx) y (hmemD y hy) hxy hyx

theorem bool_not_lt_eq_le {α : Type} [LinearOrder α] (x y : α) :
    (!decide (y < x)) = decide (x ≤ y) := by
  by_cases h : y < x
  · simp [h, not_le.mpr h]
  · simp [h, not_lt.mp h]

theorem sortData_some_eq (data : List Tx) (c dir : Str) (hc : c.isEmpty = false) :
    sortData data (some c) dir = jsSort (sortLe c dir) data := by
  show (if c.isEmpty = true then data else jsSort (sortLe c dir) data)
      = jsSort (sortLe c dir) data
  rw [hc]
  simp

theorem sortData_idem_with (c dir : Str) (data : List Tx) (gle : Tx → Tx → Bool)
    (htrans : ∀ a b c', gle a b → gle b c' → gle a c')
    (htotal : ∀ a b, gle a b || gle b a)
    (hagree : ∀ a ∈ data, ∀ b ∈ data, sortLe c dir a b = gle a b)
    (hc : c.isEmpty = false) :
    sortData (sortData data (some c) dir) (some c) dir = sortData data (some c) dir := by
  rw [sortData_some_eq data c dir hc, sortData_some_eq _ c dir hc]
  have hmem : ∀ x ∈ jsSort gle data, x ∈ data := fun x hx => (jsSort_perm gle data).subset hx
  rw [jsSort_congr _ _ _ hagree]
  rw [jsSort_congr (sortLe c dir) gle _ (fun a ha b hb => hagree a (hmem a ha) b (hmem b hb))]
  exact jsSort_idem gle htrans htotal data

/-- Strictly ordered keys: uniformly comparable and with pairwise distinct key
values. -/
def StrictKeys (c : Str) (data : List Tx) : Prop :=
  ((∀ t ∈ data, NumComparable c t) ∧
      (data.map (fun t => (keyNumQ c t).getD 0)).Nodup) ∨
  ((∀ t ∈ data, StrKeyed c t) ∧ (data.map (keyStrD c)).Nodup)

theorem sortData_some_empty (data : List Tx) (c dir : Str) (hc : c.isEmpty = true) :
    sortData data (some c) dir = data := by
  show (if c.isEmpty = true then data else jsSort (sortLe c dir) data) = data
  rw [hc]
  simp

/-- A transaction carrying only an amount (fixture for the sort claims). -/
def amountOnlyTx (v : JsVal) : Tx :=
  { amount := v, date := .null, time := .null, receiver := .null, payer := .null,
    reason := .null, totalAmount := .null, currentBalance := .null }

/-- C9 counterexample: on a collection containing a `NaN` amount (reachable:
a malformed anchored amount parses to `NaN`), sorting by `amount` twice with
the same direction gives a different sequence than sorting once — the
comparator treats `NaN` as equal to everything, which is inconsistent, and
idempotence fails. -/
theorem sortData_idempotence_counterexample :
    sortData
        (sortData
          [amountOnlyTx (.num 1), amountOnlyTx (.num 1), amountOnlyTx (.num 2),
           amountOnlyTx (.num 1), amountOnlyTx .nan, amountOnlyTx (.num 1)]
          (some ("amount".toList)) ("asc".toList))
        (some ("amount".toList)) ("asc".toList)
      ≠ sortData
          [amountOnlyTx (.num 1), amountOnlyTx (.num 1), amountOnlyTx (.num 2),
           amountOnlyTx (.num 1), amountOnlyTx .nan, amountOnlyTx (.num 1)]
          (some ("amount".toList)) ("asc".toList) := by
  decide

/-- C9 (amended): `sortData` is idempotent under repeated application with
the same key and direction provided every record's key value is comparable
and of one uniform kind (no `NaN`-valued keys such as unparsable dates or
`NaN` amounts, and not a mixture of strings and numbers) — without that
proviso idempotence can fail; and for a collection whose key values are
strictly ordered (comparable, no duplicates), sorting with the opposite
direction yields the exact reverse of the sorted sequence. -/
theorem sortData_idem_and_reverse :
    (∀ (data : List Tx) (col : Option Str) (dir : Str),
      (∀ c, col = some c → c.isEmpty = false → ComparableKeys c data) →
      sortData (sortData data col dir) col dir = sortData data col dir) ∧
    (∀ (data : List Tx) (c : Str), c.isEmpty = false → StrictKeys c data →
      sortData data (some c) ("desc".toList)
          = (sortData data (some c) ("asc".toList)).reverse ∧
      sortData data (some c) ("asc".toList)
          = (sortData data (some c) ("desc".toList)).reverse) := by
  constructor
  · intro data col dir h
    match col with
    | none => rfl
    | some c =>
      by_cases hc : c.isEmpty = true
      · rw [sortData_some_empty data c dir hc, sortData_some_empty data c dir hc]
      · have hcf : c.isEmpty = false := Bool.eq_false_iff.mpr hc
        rcases h c rfl hcf with hN | hS
        · by_cases hdir : dir = "asc".toList
          · subst hdir
            apply sortData_idem_with _ _ _ (gleNumAsc c) (gleNumAsc_trans c)
              (gleNumAsc_total c) ?_ hcf
            intro a ha b hb
            rw [sortLe_asc, sortKeyLt_eq_num c b a (hN b hb) (hN a ha)]
            rw [bool_not_lt_eq_le]
            rfl
          · apply sortData_idem_with _ _ _ (gleNumDesc c) (gleNumDesc_trans c)
              (gleNumDesc_total c) ?_ hcf
            intro a ha b hb
            rw [sortLe_not_asc c dir a b hdir, sortKeyLt_eq_num c a b (hN a ha) (hN b hb)]
            rw [bool_not_lt_eq_le]
            rfl
        · by_cases hdir : dir = "asc".toList
          · subst hdir
            apply sortData_idem_with _ _ _ (gleStrAsc c) (gleStrAsc_trans c)
              (gleStrAsc_total c) ?_ hcf
            intro a ha b hb
            rw [sortLe_asc, sortKeyLt_eq_str c b a (hS b hb) (hS a ha)]
            rfl
          · apply sortData_idem_with _ _ _ (gleStrDesc c) (gleStrDesc_trans c)
              (gleStrDesc_total c) ?_ hcf
            intro a ha b hb
            rw [sortLe_not_asc c dir a b hdir, sortKeyLt_eq_str c a b (hS a ha) (hS b hb)]
            rfl
  · intro data c hc hstrict
    have hdesc_ne : ("desc".toList : Str) ≠ "asc".toList := by decide
    rcases hstrict with ⟨hN, hnodup⟩ | ⟨hS, hnodup⟩
    · have hD : sortData data (some c) ("desc".toList) = jsSort (gleNumDesc c) data := by
        rw [sortData_some_eq data c _ hc]
        apply jsSort_congr
        intro a ha b hb
        rw [sortLe_not_asc c _ a b hdesc_ne, sortKeyLt_eq_num c a b (hN a ha) (hN b hb)]
        rw [bool_not_lt_eq_le]
        rfl
      have hA : sortData data (some c) ("asc".toList) = jsSort (gleNumAsc c) data := by
        rw [sortData_some_eq data c _ hc]
        apply jsSort_congr
        intro a ha b hb
        rw [sortLe_asc, sortKeyLt_eq_num c b a (hN b hb) (hN a ha)]
        rw [bool_not_lt_eq_le]
        rfl
      have hrev : jsSort (gleNumDesc c) data = (jsSort (gleNumAsc c) data).reverse := by
        apply jsSort_desc_eq_reverse_asc data (gleNumAsc c) (gleNumDesc c)
          (gleNumAsc_trans c) (gleNumAsc_total c) (gleNumDesc_trans c) (gleNumDesc_total c)
          (fun a b => rfl)
        intro a ha b hb h1 h2
        have hba : (keyNumQ c b).getD 0 ≤ (keyNumQ c a).getD 0 := by
          have := h1
          unfold gleNumDesc at this
          exact decide_eq_true_eq.mp this
        have hab : (keyNumQ c a).getD 0 ≤ (keyNumQ c b).getD 0 := by
          have := h2
          unfold gleNumDesc at this
          exact decide_eq_true_eq.mp this
        exact List.inj_on_of_nodup_map hnodup ha hb (le_antisymm hab hba)
      constructor
      · rw [hD, hA, hrev]
      · rw [hD, hA, hrev, List.reverse_reverse]
    · have hD : sortData data (some c) ("desc".toList) = jsSort (gleStrDesc c) data := by
        rw [sortData_some_eq data c _ hc]
        apply jsSort_congr
        intro a ha b hb
        rw [sortLe_not_asc c _ a b hdesc_ne, sortKeyLt_eq_str c a b (hS a ha) (hS b hb)]
        rfl
      have hA : sortData data (some c) ("asc".toList) = jsSort (gleStrAsc c) data := by
        rw [sortData_some_eq data c _ hc]
        apply jsSort_congr
        intro a ha b hb
        rw [sortLe_asc, sortKeyLt_eq_str c b a (hS b hb) (hS a ha)]
        rfl
      have hrev : jsSort (gleStrDesc c) data = (jsSort (gleStrAsc c) data).reverse := by
        apply jsSort_desc_eq_reverse_asc data (gleStrAsc c) (gleStrDesc c)
          (gleStrAsc_trans c) (gleStrAsc_total c) (gleStrDesc_trans c) (gleStrDesc_total c)
          (fun a b => rfl)
        intro a ha b hb h1 h2
        have hab : lexLt (keyStrD c a) (keyStrD c b) = false := by
          have h1' := h1
          unfold gleStrDesc at h1'
          rw [Bool.not_eq_true'] at h1'
          exact h1'
        have hba : lexLt (keyStrD c b) (keyStrD c a) = false := by
          have h2' := h2
          unfold gleStrDesc at h2'
          rw [Bool.not_eq_true'] at h2'
          exact h2'
        exact List.inj_on_of_nodup_map hnodup ha hb (lexLt_connex _ _ hab hba)
      constructor
      · rw [hD, hA, hrev]
      · rw [hD, hA, hrev, List.reverse_reverse]

/-- C9 witness: idempotence on a concrete comparable collection, and exact
reversal on strictly ordered amounts. -/
theorem sortData_idem_and_reverse_witness :
    sortData
        (sortData [amountOnlyTx (.num 2), amountOnlyTx (.num 1)]
          (some ("amount".toList)) ("asc".toList))
        (some ("amount".toList)) ("asc".toList)
      = sortData [amountOnlyTx (.num 2), amountOnlyTx (.num 1)]
          (some ("amount".toList)) ("asc".toList) ∧
    sortData [amountOnlyTx (.num 2), amountOnlyTx (.num 1)]
        (some ("amount".toList)) ("desc".toList)
      = (sortData [amountOnlyTx (.num 2), amountOnlyTx (.num 1)]
          (some ("amount".toList)) ("asc".toList)).reverse := by
  have hnum : ∀ t ∈ [amountOnlyTx (.num 2), amountOnlyTx (.num 1)],
      NumComparable ("amount".toList) t := by
    intro t ht
    refine ⟨?_, Or.inr ?_⟩
    · revert ht
      revert t
      decide
    · intro s heq
      rcases List.mem_cons.mp ht with rfl | ht'
      · exact JsVal.noConfusion heq
      · rcases List.mem_singleton.mp ht' with rfl
        exact JsVal.noConfusion heq
  constructor
  · exact sortData_idem_and_reverse.1
      [amountOnlyTx (.num 2), amountOnlyTx (.num 1)] (some ("amount".toList))
      ("asc".toList)
      (fun c hc _ => by cases Option.some.inj hc; exact Or.inl hnum)
  · exact (sortData_idem_and_reverse.2
      [amountOnlyTx (.num 2), amountOnlyTx (.num 1)] ("amount".toList)
      (by decide) (Or.inl ⟨hnum, by decide⟩)).1

/-- The grouping criterion of `getTopRecipients`: the object key a
transaction contributes to, `none` when the receiver is falsy (null or the
empty string). -/
def receiverKeyOpt (tx : Tx) : Option Str :=
  if jsTruthy tx.receiver then some (jsKeyStr tx.receiver) else none

/-- Insert a key at the end unless already present (object key creation). -/
def insKey (acc : List Str) (k : Str) : List Str := if k ∈ acc then acc else acc ++ [k]

/-- The keys of the accumulator object in enumeration (first-appearance)
order. -/
def keysInOrder (l : List Str) : List Str := l.foldl insKey []

/-- The transactions attributed to key `k`. -/
def groupTxs (txs : List Tx) (k : Str) : List Tx :=
  txs.filter (fun tx => receiverKeyOpt tx = some k)

/-- One accumulation step of the group total: `(acc || 0) + a`. -/
def accAddAmt (acc a : JsVal) : JsVal := jsAdd (jsOr0 acc) a

/-- The accumulated total of a group (starting from the absent, `undefined`,
object entry). -/
def groupTotal (txs : List Tx) (k : Str) : JsVal :=
  ((groupTxs txs k).map Tx.amount).foldl accAddAmt JsVal.undef

theorem keysInOrder_append (l : List Str) (k : Str) :
    keysInOrder (l ++ [k]) = insKey (keysInOrder l) k := by
  unfold keysInOrder
  rw [List.foldl_append]
  rfl

theorem insKey_mem (acc : List Str) (k x : Str) :
    x ∈ insKey acc k ↔ x ∈ acc ∨ x = k := by
  unfold insKey
  by_cases h : k ∈ acc
  · simp only [h, if_true]
    constructor
    · exact Or.inl
    · rintro (hx | rfl)
      · exact hx
      · exact h
  · simp [h]

theorem keysInOrder_mem (l : List Str) (x : Str) : x ∈ keysInOrder l ↔ x ∈ l := by
  induction l using List.reverseRecOn with
  | nil => simp [keysInOrder]
  | append_singleton l k ih =>
    rw [keysInOrder_append, insKey_mem, ih]
    simp

theorem insKey_nodup (acc : List Str) (k : Str) (h : acc.Nodup) : (insKey acc k).Nodup := by
  unfold insKey
  by_cases hk : k ∈ acc
  · simpa [hk]
  · simp only [hk, if_false]
    rw [List.nodup_append]
    refine ⟨h, List.nodup_singleton k, ?_⟩
    intro a ha hak
    rw [List.mem_singleton] at hak
    subst hak
    exact absurd ha hk

theorem keysInOrder_nodup (l : List Str) : (keysInOrder l).Nodup := by
  induction l using List.reverseRecOn with
  | nil => simp [keysInOrder]
  | append_singleton l k ih => rw [keysInOrder_append]; exact insKey_nodup _ k ih

theorem bumpGroups_absent (acc : List (Str × Nat × JsVal)) (key : Str) (amt : JsVal)
    (h : ∀ e ∈ acc, e.1 ≠ key) :
    bumpGroups acc key amt = acc ++ [(key, 1, jsAdd (.num 0) amt)] := by
  induction acc with
  | nil => rfl
  | cons e rest ih =>
    match e with
    | (k, c, tot) =>
      have hk : k ≠ key := h (k, c, tot) (by simp)
      unfold bumpGroups
      rw [if_neg hk, ih (fun e' he' => h e' (by simp [he']))]
      simp

theorem bumpGroups_present (l1 l2 : List (Str × Nat × JsVal)) (key : Str) (c : Nat)
    (tot amt : JsVal) (h : ∀ e ∈ l1, e.1 ≠ key) :
    bumpGroups (l1 ++ (key, c, tot) :: l2) key amt
      = l1 ++ (key, c + 1, jsAdd (jsOr0 tot) amt) :: l2 := by
  induction l1 with
  | nil =>
    show bumpGroups ((key, c, tot) :: l2) key amt = _
    unfold bumpGroups
    rw [if_pos rfl]
    rfl
  | cons e rest ih =>
    match e with
    | (k, c', tot') =>
      have hk : k ≠ key := h (k, c', tot') (by simp)
      show bumpGroups ((k, c', tot') :: (rest ++ (key, c, tot) :: l2)) key amt = _
      unfold bumpGroups
      rw [if_neg hk, ih (fun e' he' => h e' (by simp [he']))]
      rfl

/-- The `(key, count, total)` row the accumulators hold for key `k`. -/
def groupRow (txs : List Tx) (k : Str) : Str × Nat × JsVal :=
  (k, (groupTxs txs k).length, groupTotal txs k)

theorem groupTxs_nil_of_not_mem (txs : List Tx) (k : Str)
    (h : k ∉ txs.filterMap receiverKeyOpt) : groupTxs txs k = [] := by
  unfold groupTxs
  rw [List.filter_eq_nil]
  intro tx htx
  simp only [decide_eq_true_eq]
  intro hrk
  exact h (List.mem_filterMap.mpr ⟨tx, htx, hrk⟩)

theorem recipientGroups_char (txs : List Tx) :
    recipientGroups txs
      = (keysInOrder (txs.filterMap receiverKeyOpt)).map (groupRow txs) := by
  induction txs using List.reverseRecOn with
  | nil => rfl
  | append_singleton txs tx ih =>
    have hsnoc : recipientGroups (txs ++ [tx])
        = (if jsTruthy tx.receiver then
            bumpGroups (recipientGroups txs) (jsKeyStr tx.receiver) tx.amount
          else recipientGroups txs) := by
      unfold recipientGroups
      rw [List.foldl_append]
      rfl
    by_cases htr : jsTruthy tx.receiver = true
    · have hrk : receiverKeyOpt tx = some (jsKeyStr tx.receiver) := by
        unfold receiverKeyOpt
        rw [if_pos htr]
      have hkeys : (txs ++ [tx]).filterMap receiverKeyOpt
          = txs.filterMap receiverKeyOpt ++ [jsKeyStr tx.receiver] := by
        rw [List.filterMap_append]
        simp [hrk]
      have hgt_eq : ∀ k', k' ≠ jsKeyStr tx.receiver →
          groupTxs (txs ++ [tx]) k' = groupTxs txs k' := by
        intro k' hk'
        unfold groupTxs
        rw [List.filter_append]
        have : receiverKeyOpt tx ≠ some k' := by
          rw [hrk]
          intro hx
          exact hk' (Option.some.inj hx).symm
        simp [this]
      have hrow_eq : ∀ k', k' ≠ jsKeyStr tx.receiver →
          groupRow (txs ++ [tx]) k' = groupRow txs k' := by
        intro k' hk'
        unfold groupRow groupTotal
        rw [hgt_eq k' hk']
      have hgt_key : groupTxs (txs ++ [tx]) (jsKeyStr tx.receiver)
          = groupTxs txs (jsKeyStr tx.receiver) ++ [tx] := by
        unfold groupTxs
        rw [List.filter_append]
        simp [hrk]
      have hrow_key : groupRow (txs ++ [tx]) (jsKeyStr tx.receiver)
          = (jsKeyStr tx.receiver,
             (groupTxs txs (jsKeyStr tx.receiver)).length + 1,
             accAddAmt (groupTotal txs (jsKeyStr tx.receiver)) tx.amount) := by
        unfold groupRow groupTotal
        rw [hgt_key, List.map_append, List.foldl_append]
        simp
      rw [hsnoc, if_pos htr, hkeys, keysInOrder_append, ih]
      unfold insKey
      by_cases hmem : jsKeyStr tx.receiver ∈ keysInOrder (txs.filterMap receiverKeyOpt)
      · rw [if_pos hmem]
        obtain ⟨l1, l2, hsplit⟩ := List.append_of_mem hmem
        have hnd : (keysInOrder (txs.filterMap receiverKeyOpt)).Nodup := keysInOrder_nodup _
        rw [hsplit] at hnd ⊢
        obtain ⟨hnd1, hnd2, hdisj⟩ := List.nodup_append.mp hnd
        have hnotin1 : jsKeyStr tx.receiver ∉ l1 := fun hx => hdisj hx (by simp)
        have hnotin2 : jsKeyStr tx.receiver ∉ l2 := (List.nodup_cons.mp hnd2).1
        rw [List.map_append, List.map_cons]
        rw [show groupRow txs (jsKeyStr tx.receiver)
            = (jsKeyStr tx.receiver, (groupTxs txs (jsKeyStr tx.receiver)).length,
               groupTotal txs (jsKeyStr tx.receiver)) from rfl]
        rw [bumpGroups_present (l1.map (groupRow txs)) (l2.map (groupRow txs))
          (jsKeyStr tx.receiver) _ _ tx.amount ?_]
        · rw [List.map_append, List.map_cons, hrow_key]
          rw [List.map_congr_left
            (fun k' hk' => hrow_eq k' (fun hx => hnotin1 (hx ▸ hk')))]
          rw [List.map_congr_left
            (fun k' hk' => hrow_eq k' (fun hx => hnotin2 (hx ▸ hk')))]
          rfl
        · intro e he
          rw [List.mem_map] at he
          obtain ⟨k', hk', rfl⟩ := he
          exact fun hx => hnotin1 (hx ▸ hk')
      · rw [if_neg hmem]
        rw [bumpGroups_absent _ (jsKeyStr tx.receiver) tx.amount ?_]
        · rw [List.map_append, List.map_singleton]
          rw [List.map_congr_left
            (fun k' hk' => hrow_eq k' (fun hx => hmem (hx ▸ hk')))]
          have hempty : groupTxs txs (jsKeyStr tx.receiver) = [] :=
            groupTxs_nil_of_not_mem txs _ (fun hx => hmem ((keysInOrder_mem _ _).mpr hx))
          have htot : groupTotal txs (jsKeyStr tx.receiver) = JsVal.undef := by
            unfold groupTotal
            rw [hempty]
            rfl
          rw [hrow_key, hempty, htot]
          rfl
        · intro e he
          rw [List.mem_map] at he
          obtain ⟨k', hk', rfl⟩ := he
          exact fun hx => hmem (hx ▸ hk')
    · have htr' : jsTruthy tx.receiver = false := Bool.eq_false_iff.mpr htr
      have hrk : receiverKeyOpt tx = none := by
        unfold receiverKeyOpt
        rw [if_neg htr]
      have hkeys : (txs ++ [tx]).filterMap receiverKeyOpt = txs.filterMap receiverKeyOpt := by
        rw [List.filterMap_append]
        simp [hrk]
      rw [hsnoc, if_neg htr, ih, hkeys]
      apply List.map_congr_left
      intro k hk
      unfold groupRow groupTotal groupTxs
      rw [List.filter_append]
      simp [hrk]

theorem groupCountLe_trans (a b c : Str × Nat × JsVal) (h1 : groupCountLe a b)
    (h2 : groupCountLe b c) : groupCountLe a c = true := by
  unfold groupCountLe at h1 h2 ⊢
  rw [decide_eq_true_eq] at h1 h2 ⊢
  omega

theorem groupCountLe_total (a b : Str × Nat × JsVal) :
    groupCountLe a b || groupCountLe b a := by
  unfold groupCountLe
  rcases Nat.le_total a.2.1 b.2.1 with h | h <;> simp [h]

/-- A transaction carrying an amount and a receiver (fixture for the
aggregation claim). -/
def recAmtTx (r : Str) (v : JsVal) : Tx :=
  { amount := v, date := .null, time := .null, receiver := .str r, payer := .null,
    reason := .null, totalAmount := .null, currentBalance := .null }

/-- C3 counterexample: on the specification's own example input the code
returns the group `A` FIRST — the entries are sorted by descending count
(`countB - countA`), not by descending summed amount — so the claimed output
`[{key:"B",amount:20,count:1},{key:"A",amount:15,count:2}]` is wrong both in
order and in the claimed sort criterion. -/
theorem top_recipients_order_counterexample :
    getTopRecipients
        [recAmtTx ("A".toList) (.num 10), recAmtTx ("A".toList) (.num 5),
         recAmtTx ("B".toList) (.num 20)] 25
      = [{ recipient := "A".toList, amount := .num 15, count := 2 },
         { recipient := "B".toList, amount := .num 20, count := 1 }] ∧
    ([{ recipient := "A".toList, amount := JsVal.num 15, count := 2 },
      { recipient := "B".toList, amount := .num 20, count := 1 }] : List RecipientRow)
      ≠ [{ recipient := "B".toList, amount := .num 20, count := 1 },
         { recipient := "A".toList, amount := .num 15, count := 2 }] := by
  exact ⟨by decide, by decide⟩

/-- C3 (amended): `getTopRecipients` groups by truthy receiver (null and
empty receivers are ignored), keeping first-appearance key order; each row
reports the group's transaction count and its JavaScript-accumulated sum of
RAW amounts (`(total || 0) + amount`: null amounts add 0, a `NaN` running
total resets to 0 — not a sum of absolute values); rows are ordered by
DESCENDING COUNT (not amount) under a stable sort, ties keeping
first-appearance order, and truncated to the limit (canonically 25); the
specification's example yields `[{A,15,2},{B,20,1}]`. -/
theorem top_recipients_spec :
    (getTopRecipients
        [recAmtTx ("A".toList) (.num 10), recAmtTx ("A".toList) (.num 5),
         recAmtTx ("B".toList) (.num 20)] 25
      = [{ recipient := "A".toList, amount := .num 15, count := 2 },
         { recipient := "B".toList, amount := .num 20, count := 1 }]) ∧
    (∀ (txs : List Tx) (limit : Nat),
      (∀ r ∈ getTopRecipients txs limit,
        r.count = (groupTxs txs r.recipient).length ∧
        r.amount = groupTotal txs r.recipient ∧
        r.recipient ∈ txs.filterMap receiverKeyOpt) ∧
      (getTopRecipients txs limit).Pairwise (fun r1 r2 => r2.count ≤ r1.count) ∧
      (getTopRecipients txs limit).length
        = min limit (keysInOrder (txs.filterMap receiverKeyOpt)).length ∧
      (∀ g1 g2, List.Sublist [g1, g2] (recipientGroups txs) → g1.2.1 = g2.2.1 →
        List.Sublist [g1, g2] (jsSort groupCountLe (recipientGroups txs)))) := by
  constructor
  · decide
  · intro txs limit
    refine ⟨?_, ?_, ?_, ?_⟩
    · intro r hr
      unfold getTopRecipients at hr
      rw [List.mem_map] at hr
      obtain ⟨e, he, rfl⟩ := hr
      have he' : e ∈ jsSort groupCountLe (recipientGroups txs) :=
        List.mem_of_mem_take he
      have he'' : e ∈ recipientGroups txs :=
        (jsSort_perm groupCountLe (recipientGroups txs)).subset he'
      rw [recipientGroups_char] at he''
      rw [List.mem_map] at he''
      obtain ⟨k, hk, rfl⟩ := he''
      exact ⟨rfl, rfl, (keysInOrder_mem _ _).mp hk⟩
    · unfold getTopRecipients
      have hs := jsSort_sorted groupCountLe groupCountLe_trans groupCountLe_total
        (recipientGroups txs)
      have ht : (List.take limit (jsSort groupCountLe (recipientGroups txs))).Pairwise
          (fun e1 e2 => groupCountLe e1 e2 = true) :=
        hs.sublist (List.take_sublist _ _)
      refine List.Pairwise.map _ ?_ ht
      intro e1 e2 h12
      unfold groupCountLe at h12
      exact decide_eq_true_eq.mp h12
    · unfold getTopRecipients
      rw [List.length_map, List.length_take]
      congr 1
      rw [(jsSort_perm groupCountLe (recipientGroups txs)).length_eq]
      rw [recipientGroups_char, List.length_map]
    · intro g1 g2 hsub heq
      apply jsSort_pair_sublist groupCountLe groupCountLe_trans groupCountLe_total ?_ hsub
      unfold groupCountLe
      rw [heq]
      simp

/-- C3 witness: the general clauses applied to the example collection — the
first row of the output carries group `A`'s count 2 and raw total 15, and a
count-tie keeps first-appearance order. -/
theorem top_recipients_spec_witness :
    ({ recipient := ("A".toList : Str), amount := JsVal.num 15, count := 2 } :
        RecipientRow).count
      = (groupTxs
          [recAmtTx ("A".toList) (.num 10), recAmtTx ("A".toList) (.num 5),
           recAmtTx ("B".toList) (.num 20)]
          ("A".toList)).length ∧
    (getTopRecipients
        [recAmtTx ("A".toList) (.num 10), recAmtTx ("A".toList) (.num 5),
         recAmtTx ("B".toList) (.num 20)] 25).length
      = min 25 (keysInOrder
          ([recAmtTx ("A".toList) (.num 10), recAmtTx ("A".toList) (.num 5),
            recAmtTx ("B".toList) (.num 20)].filterMap receiverKeyOpt)).length := by
  constructor
  · exact ((top_recipients_spec.2
      [recAmtTx ("A".toList) (.num 10), recAmtTx ("A".toList) (.num 5),
       recAmtTx ("B".toList) (.num 20)] 25).1
      { recipient := "A".toList, amount := .num 15, count := 2 }
      (by rw [top_recipients_spec.1]; exact List.mem_cons_self _ _)).1
  · exact (top_recipients_spec.2
      [recAmtTx ("A".toList) (.num 10), recAmtTx ("A".toList) (.num 5),
       recAmtTx ("B".toList) (.num 20)] 25).2.2.1
